import Mathlib

/-!
Shallow embedding of the obsidian-github plugin (`main.ts`, latest iteration:
the file defining `fetchStars`, `fetchPullRequests`, `createNoteForRepo`,
`createNoteForPR`, `normalizeTag`).  Machine strings are Lean `String`s, the
vault is an explicit state value, host-side fallible operations are driven by
an explicit failure oracle, and the wall clock / Handlebars renderer are
explicit parameters (`Env`), since they are host collaborators the plugin
consumes as black boxes.
-/

namespace ObsidianGH

/-- Frontmatter scalar/list values stored in a note's structured metadata block. -/
inductive FmVal where
  | str (s : String)
  | nat (n : Nat)
  | bool (b : Bool)
  | list (l : List String)
  deriving DecidableEq, Repr

/-- A vault file: free-text body plus the structured metadata (frontmatter) block.
The host primitive `fileManager.processFrontMatter` edits only `fm`, never `body`. -/
structure VFile where
  body : String
  fm : List (String × FmVal)
  deriving DecidableEq, Repr

/-- The Obsidian vault: files keyed by path, plus the set of folder paths. -/
structure Vault where
  files : List (String × VFile)
  folders : List String
  deriving DecidableEq, Repr

def Vault.getFile (v : Vault) (p : String) : Option VFile :=
  (v.files.find? (fun f => f.1 == p)).map Prod.snd

/-- Model of `vault.adapter.exists`: true when a file or a folder lives at the path. -/
def Vault.existsPath (v : Vault) (p : String) : Bool :=
  v.files.any (fun f => f.1 == p) || v.folders.contains p

/-- Model of `vault.create`. -/
def Vault.createFile (v : Vault) (p : String) (content : String) : Vault :=
  { v with files := v.files ++ [(p, { body := content, fm := [] })] }

/-- Set one key of a frontmatter block, keeping declaration order of other keys. -/
def setKey (fm : List (String × FmVal)) (k : String) (val : FmVal) : List (String × FmVal) :=
  if fm.any (fun e => e.1 == k) then
    fm.map (fun e => if e.1 == k then (k, val) else e)
  else fm ++ [(k, val)]

/-- Model of `fileManager.processFrontMatter`: assign the given keys in the file's
metadata block; the body and every other file are untouched (host API contract). -/
def Vault.setFm (v : Vault) (p : String) (fields : List (String × FmVal)) : Vault :=
  { v with files := v.files.map (fun f =>
      if f.1 == p then
        (f.1, { f.2 with fm := fields.foldl (fun acc kv => setKey acc kv.1 kv.2) f.2.fm })
      else f) }

/-- `GitHubPluginSettings` from the source. -/
structure GitHubPluginSettings where
  apiToken : String
  username : String
  targetDirectory : String
  lastFetchDate : String
  syncEnabled : Bool
  syncPullRequests : Bool
  lastPRFetchDate : String
  prDirectory : String
  useDefaultTemplateStar : Bool
  templatePathStar : String
  useDefaultTemplatePR : Bool
  templatePathPR : String
  deriving DecidableEq, Repr

/-- `StarredRepo.owner` from the source. -/
structure RepoOwner where
  login : String
  avatar_url : String
  deriving DecidableEq, Repr

/-- `StarredRepo` from the source.  `topics` may be absent in the API reply
(`repo.topics || []`); the defaulting to the empty list is folded into the type. -/
structure StarredRepo where
  name : String
  full_name : String
  html_url : String
  description : String
  created_at : String
  updated_at : String
  language : String
  stargazers_count : Nat
  topics : List String
  owner : RepoOwner
  deriving DecidableEq, Repr

/-- `PullRequest.labels` entries. -/
structure PRLabel where
  name : String
  deriving DecidableEq, Repr

/-- The nested `pull_request` object of an issues-search item. -/
structure PRLink where
  url : String
  html_url : String
  merged_at : Option String
  deriving DecidableEq, Repr

/-- `PullRequest` from the source (issues-search item).  Nullable string fields
are `Option String`. -/
structure PullRequest where
  id : Nat
  number : Nat
  title : String
  html_url : String
  state : String
  created_at : String
  updated_at : String
  closed_at : Option String
  merged_at : Option String
  draft : Bool
  pull_request : Option PRLink
  repository_url : String
  labels : List PRLabel
  deriving DecidableEq, Repr

/-- Host environment: wall clock readings, the date formatter and the Handlebars
renderer (external collaborators), plus a failure oracle saying, per record,
whether the render-and-create step (`vault.create` / template read) or the
`processFrontMatter` call throws for that record. -/
structure Env where
  nowISO : String
  todayYMD : String
  nowLocale : String
  parseYMD : String → String
  hbStar : String → StarredRepo → String
  hbPR : String → PullRequest → String
  cFailStar : StarredRepo → Bool
  fmFailStar : StarredRepo → Bool
  cFailPR : PullRequest → Bool
  fmFailPR : PullRequest → Bool

/-- JS string truthiness check used throughout (`if (str)`): non-empty string. -/
def strTruthy : Option String → Bool
  | none => false
  | some s => !(s == "")

/-- Characters admitted by `normalizeTag`'s character class `[a-z0-9/_-]`. -/
def isTagChar (c : Char) : Bool :=
  ('a' ≤ c && c ≤ 'z') || ('0' ≤ c && c ≤ '9') || c == '/' || c == '_' || c == '-'

/-- `normalizeTag` from the source: lower-case, then replace every character
outside `[a-z0-9/_-]` with an underscore.  (`Char.toLower` matches the ASCII
case of JS `toLowerCase`; a non-ASCII upper-case letter is outside the admitted
class both before and after lowering, so it maps to an underscore either way.) -/
def normalizeTag (tag : String) : String :=
  String.mk ((tag.data.map Char.toLower).map (fun c => if isTagChar c then c else '_'))

/-- JS `String.replace('/', '-')` with a string pattern: only the first occurrence. -/
def replaceFirstSlash : List Char → List Char
  | [] => []
  | c :: cs => if c == '/' then '-' :: cs else c :: replaceFirstSlash cs

/-- The note path computed by `createNoteForRepo`. -/
def repoNotePath (s : GitHubPluginSettings) (repo : StarredRepo) : String :=
  s.targetDirectory ++ "/" ++ String.mk (replaceFirstSlash repo.full_name.data) ++ ".md"

/-- JS `.replace(/"/g, '\\"')` applied to descriptions and titles. -/
def escapeQuotes (x : String) : String :=
  String.mk (x.data.foldr (fun c acc => if c == '"' then '\\' :: '"' :: acc else c :: acc) [])

/-- The tag list built by `createNoteForRepo` under the built-in template. -/
def starTags (repo : StarredRepo) : List String :=
  ["type/github-star"]
    ++ (if repo.language == "" then [] else ["github/language/" ++ normalizeTag repo.language])
    ++ repo.topics.map (fun t => "github/topic/" ++ normalizeTag t)

/-- The frontmatter assignments of `createNoteForRepo`. -/
def starFm (env : Env) (repo : StarredRepo) : List (String × FmVal) :=
  [("tags", FmVal.list (starTags repo)),
   ("aliases", FmVal.list [repo.name]),
   ("description", FmVal.str (escapeQuotes
      (if repo.description == "" then "No description" else repo.description))),
   ("url", FmVal.str repo.html_url),
   ("owner", FmVal.str ("https://github.com/" ++ repo.owner.login)),
   ("language", FmVal.str (if repo.language == "" then "Not specified" else repo.language)),
   ("stars", FmVal.nat repo.stargazers_count),
   ("created", FmVal.str (env.parseYMD repo.created_at)),
   ("modified", FmVal.str env.todayYMD),
   ("lastUpdated", FmVal.str env.nowLocale)]

/-- The built-in star template literal. -/
def starDefaultTemplate : String := "# \x7b\x7b name \x7d\x7d\n\n"

/-- The built-in pull-request template literal. -/
def prDefaultTemplate : String := "# \x7b\x7b title \x7d\x7d\n\n"

/-- `readTemplate` from the source: the default template when forced, when the
path is unset, or when the template file is missing; else the file's content. -/
def readTemplate (v : Vault) (forceDefault : Bool) (templatePath defaultTemplate : String) :
    String :=
  if forceDefault then defaultTemplate
  else if templatePath == "" then defaultTemplate
  else match v.getFile templatePath with
       | some f => f.body
       | none => defaultTemplate

/-- `createNoteForRepo` from the source.  The existence check runs before the
`try` block; inside it, a missing-file-object on an existing path throws, a new
file is created from the rendered template, and under the built-in template the
frontmatter is rewritten.  Any throw is caught (remaining steps skipped, earlier
effects kept) and the function returns the negated pre-check regardless. -/
def createNoteForRepo (env : Env) (s : GitHubPluginSettings) (v : Vault)
    (repo : StarredRepo) : Bool × Vault :=
  let fileName := repoNotePath s repo
  let exists0 := v.existsPath fileName
  let step1 : Vault × Bool :=
    if exists0 then
      match v.getFile fileName with
      | some _ => (v, true)
      | none => (v, false)
    else
      if env.cFailStar repo then (v, false)
      else
        let content := env.hbStar
          (readTemplate v s.useDefaultTemplateStar s.templatePathStar starDefaultTemplate) repo
        (v.createFile fileName content, true)
  let v2 :=
    if step1.2 && s.useDefaultTemplateStar then
      if env.fmFailStar repo then step1.1
      else step1.1.setFm fileName (starFm env repo)
    else step1.1
  (!exists0, v2)

/-- Shared body of `ensureTargetDirectoryExists` / `ensurePRDirectoryExists` /
`ensureDirectoryExists`: split on `/`, drop blank segments, create each missing
prefix folder.  Folder creation is modelled as infallible. -/
def ensureDirs (v : Vault) (dirPath : String) : Vault :=
  let dirs := (dirPath.splitOn "/").filter (fun p => !(p.trim == ""))
  (dirs.foldl
    (fun (acc : Vault × String) d =>
      let cur := if acc.2 == "" then d else acc.2 ++ "/" ++ d
      (if acc.1.existsPath cur then acc.1
       else { acc.1 with folders := acc.1.folders ++ [cur] }, cur))
    (v, "")).1

/-- JS character class `[\\/:*?"<>|]` of the filename sanitizer. -/
def jsBadFileChar (c : Char) : Bool :=
  c == '\\' || c == '/' || c == ':' || c == '*' || c == '?' || c == '"' ||
  c == '<' || c == '>' || c == '|'

/-- JS `\s` on the characters this plugin can meet (ASCII whitespace and the
common Unicode spaces). -/
def jsSpace (c : Char) : Bool :=
  c == ' ' || c == '\t' || c == '\n' || c == '\r' || c == '\x0b' || c == '\x0c' ||
  c == '\u00A0' || c == '\u2028' || c == '\u2029' || c == '\uFEFF'

/-- JS `.replace(/\s+/g, rep)`: each maximal whitespace run becomes one `rep`.
The boolean says whether the previous character was part of a run. -/
def collapseWs (rep : Char) : Bool → List Char → List Char
  | _, [] => []
  | prev, c :: cs =>
    if jsSpace c then
      if prev then collapseWs rep true cs else rep :: collapseWs rep true cs
    else c :: collapseWs rep false cs

/-- The sanitized PR title used in the note filename: bad filename characters to
`-`, whitespace runs to `_`, truncated to 50 characters. -/
def prSafeTitle (title : String) : String :=
  String.mk ((collapseWs '_' false
    (title.data.map (fun c => if jsBadFileChar c then '-' else c))).take 50)

/-- `pr.repository_url.split('/')`. -/
def urlParts (u : String) : List String := u.splitOn "/"

/-- `parts[parts.length - 2]` of the repository URL. -/
def prRepoOwner (pr : PullRequest) : String :=
  (urlParts pr.repository_url).getD ((urlParts pr.repository_url).length - 2) ""

/-- `parts[parts.length - 1]` of the repository URL. -/
def prRepoName (pr : PullRequest) : String :=
  (urlParts pr.repository_url).getD ((urlParts pr.repository_url).length - 1) ""

/-- `this.settings.prDirectory || this.settings.targetDirectory`. -/
def prBaseDir (s : GitHubPluginSettings) : String :=
  if s.prDirectory == "" then s.targetDirectory else s.prDirectory

/-- The per-repository directory `prDir/{owner}/{repo}` of a PR note. -/
def prRepoDir (s : GitHubPluginSettings) (pr : PullRequest) : String :=
  prBaseDir s ++ "/" ++ prRepoOwner pr ++ "/" ++ prRepoName pr

/-- The note path computed by `createNoteForPR`. -/
def prNotePath (s : GitHubPluginSettings) (pr : PullRequest) : String :=
  prRepoDir s pr ++ "/" ++ toString pr.number ++ "_" ++ prSafeTitle pr.title ++ ".md"

/-- JS `pr.pull_request?.merged_at || pr.merged_at`. -/
def prMergedVal (pr : PullRequest) : Option String :=
  let nested := match pr.pull_request with
    | some l => l.merged_at
    | none => none
  if strTruthy nested then nested else pr.merged_at

/-- JS `opt || dflt` on a nullable string. -/
def orElseStr (o : Option String) (dflt : String) : String :=
  match o with
  | some x => if x == "" then dflt else x
  | none => dflt

/-- The label tag built by `createNoteForPR`: lower-cased, whitespace runs
replaced by hyphens — and nothing else. -/
def prLabelTag (name : String) : String :=
  "github/pr-label/" ++ String.mk (collapseWs '-' false (name.data.map Char.toLower))

/-- The tag list built by `createNoteForPR` under the built-in template. -/
def prTags (pr : PullRequest) : List String :=
  ["type/github-pr", "github/pr-state/" ++ pr.state]
    ++ (if pr.draft then ["github/pr-draft"] else [])
    ++ (if strTruthy (prMergedVal pr) then ["github/pr-merged"] else [])
    ++ pr.labels.map (fun l => prLabelTag l.name)

/-- The frontmatter assignments of `createNoteForPR`. -/
def prFm (env : Env) (pr : PullRequest) : List (String × FmVal) :=
  let repoFullName := prRepoOwner pr ++ "/" ++ prRepoName pr
  [("tags", FmVal.list (prTags pr)),
   ("title", FmVal.str (escapeQuotes pr.title)),
   ("url", FmVal.str pr.html_url),
   ("repository", FmVal.str repoFullName),
   ("repository_url", FmVal.str ("https://github.com/" ++ repoFullName)),
   ("owner", FmVal.str ("https://github.com/" ++ prRepoOwner pr)),
   ("pr_number", FmVal.nat pr.number),
   ("state", FmVal.str pr.state),
   ("draft", FmVal.bool pr.draft),
   ("closed_at", FmVal.str (orElseStr pr.closed_at "Not closed")),
   ("merged_at", FmVal.str (orElseStr (prMergedVal pr) "Not merged")),
   ("lastUpdated", FmVal.str env.nowLocale)]

/-- `createNoteForPR` from the source: ensure the repository directory, check
existence, then mirror `createNoteForRepo`'s try/catch structure. -/
def createNoteForPR (env : Env) (s : GitHubPluginSettings) (v : Vault)
    (pr : PullRequest) : Bool × Vault :=
  let fileName := prNotePath s pr
  let v0 := ensureDirs v (prRepoDir s pr)
  let exists0 := v0.existsPath fileName
  let step1 : Vault × Bool :=
    if exists0 then
      match v0.getFile fileName with
      | some _ => (v0, true)
      | none => (v0, false)
    else
      if env.cFailPR pr then (v0, false)
      else
        let content := env.hbPR
          (readTemplate v0 s.useDefaultTemplatePR s.templatePathPR prDefaultTemplate) pr
        (v0.createFile fileName content, true)
  let v2 :=
    if step1.2 && s.useDefaultTemplatePR then
      if env.fmFailPR pr then step1.1
      else step1.1.setFm fileName (prFm env pr)
    else step1.1
  (!exists0, v2)

/-- Result of the inner `for` loop over one page of items. -/
structure ItemsOut (α : Type) where
  vault : Vault
  count : Nat
  stopped : Bool
  outcomes : List (α × Bool)
  deriving Repr, DecidableEq

/-- The inner `for` loop of `fetchStars` / `fetchPullRequests`: materialize items
in order; on an incremental run (`firstFetch = false`) break at the first item
whose materializer reports an already-existing note.  `outcomes` records, in
order, each item handed to the materializer with the boolean it returned. -/
def processItems {α : Type} (mat : Vault → α → Bool × Vault) (firstFetch : Bool) :
    List α → Vault → ItemsOut α
  | [], v => ⟨v, 0, false, []⟩
  | it :: its, v =>
    let r := mat v it
    if !firstFetch && !r.1 then ⟨r.2, 0, true, [(it, r.1)]⟩
    else
      let rest := processItems mat firstFetch its r.2
      ⟨rest.vault, rest.count + 1, rest.stopped, (it, r.1) :: rest.outcomes⟩

/-- Result of the whole page loop. -/
structure RunOut (α : Type) where
  vault : Vault
  count : Nat
  pagesRequested : Nat
  stopped : Bool
  outcomes : List (α × Bool)
  deriving Repr, DecidableEq

/-- The `while` page loop shared by `fetchStars` and `fetchPullRequests`.  The
remote is the sequence of replies successive page requests would produce; a
request past the end of the list yields an empty page.  `response.hasMore` is
`items.length == 100` exactly as computed by `getStarredRepos` /
`getPullRequests` (`perPage = 100`); no cursor or count field is consulted.  A
throwing request aborts the loop, carrying the vault state and the number of
requests issued so far. -/
def fetchPages {α : Type} (mat : Vault → α → Bool × Vault) (firstFetch : Bool) :
    List (Except String (List α)) → Vault → Except (String × Vault × Nat) (RunOut α)
  | [], v => .ok ⟨v, 0, 1, false, []⟩
  | .error e :: _, v => .error (e, v, 1)
  | .ok p :: ps, v =>
    let o := processItems mat firstFetch p v
    if o.stopped then .ok ⟨o.vault, o.count, 1, true, o.outcomes⟩
    else if p.length != 100 then .ok ⟨o.vault, o.count, 1, false, o.outcomes⟩
    else
      match fetchPages mat firstFetch ps o.vault with
      | .error (e, ve, n) => .error (e, ve, n + 1)
      | .ok r => .ok ⟨r.vault, o.count + r.count, r.pagesRequested + 1, r.stopped,
                      o.outcomes ++ r.outcomes⟩

/-- Outcome of one driver invocation. -/
inductive FetchResult (α : Type) where
  | skippedDisabled
  | skippedInvalid
  | failed (e : String)
  | ran (r : RunOut α)
  deriving DecidableEq

/-- Observable result of `fetchStars` / `fetchPullRequests`: final settings and
vault, the user notifications issued outside the page loop (per-page progress
notices are display-only and carry no state), and the number of page requests. -/
structure SyncRun (α : Type) where
  settings : GitHubPluginSettings
  vault : Vault
  notices : List String
  requests : Nat
  result : FetchResult α

/-- `settingsAreValid` from the source: `Boolean(username && targetDirectory)`. -/
def settingsAreValid (s : GitHubPluginSettings) : Bool :=
  !(s.username == "") && !(s.targetDirectory == "")

/-- `fetchStars` from the source: guard on `syncEnabled` and valid settings,
ensure the target directory, run the page loop, then persist the wall-clock
watermark; an exception escaping the loop is caught once, leaving settings
(and hence the watermark) untouched. -/
def fetchStars (env : Env) (s : GitHubPluginSettings) (v : Vault)
    (remote : List (Except String (List StarredRepo))) : SyncRun StarredRepo :=
  if !s.syncEnabled then
    ⟨s, v, ["Sync is disabled. Enable it in settings to fetch stars."], 0, .skippedDisabled⟩
  else if !(settingsAreValid s) then
    ⟨s, v, ["Please set both GitHub username and target directory in settings."], 0,
     .skippedInvalid⟩
  else
    let v0 := ensureDirs v s.targetDirectory
    match fetchPages (fun vt repo => createNoteForRepo env s vt repo)
        (s.lastFetchDate == "") remote v0 with
    | .error (e, ve, n) =>
      ⟨s, ve, ["Error fetching GitHub stars: " ++ e], n, .failed e⟩
    | .ok r =>
      ⟨{ s with lastFetchDate := env.nowISO }, r.vault,
       if r.count != 0 then ["Total " ++ toString r.count ++ " GitHub stars"] else [],
       r.pagesRequested, .ran r⟩

/-- `fetchPullRequests` from the source, same shape over the PR materializer and
the `lastPRFetchDate` watermark. -/
def fetchPullRequests (env : Env) (s : GitHubPluginSettings) (v : Vault)
    (remote : List (Except String (List PullRequest))) : SyncRun PullRequest :=
  if !s.syncEnabled then
    ⟨s, v, ["Sync is disabled. Enable it in settings to fetch pull requests."], 0,
     .skippedDisabled⟩
  else if !(settingsAreValid s) then
    ⟨s, v, ["Please set both GitHub username and target directory in settings."], 0,
     .skippedInvalid⟩
  else
    let v0 := ensureDirs v (prBaseDir s)
    match fetchPages (fun vt pr => createNoteForPR env s vt pr)
        (s.lastPRFetchDate == "") remote v0 with
    | .error (e, ve, n) =>
      ⟨s, ve, ["Error fetching pull requests: " ++ e], n, .failed e⟩
    | .ok r =>
      ⟨{ s with lastPRFetchDate := env.nowISO }, r.vault,
       if r.count != 0 then ["Total " ++ toString r.count ++ " pull requests"] else [],
       r.pagesRequested, .ran r⟩

/-- The `github-fetch-stars-force` command: clear the star watermark, save, then
run `fetchStars`. -/
def forceFetchStars (env : Env) (s : GitHubPluginSettings) (v : Vault)
    (remote : List (Except String (List StarredRepo))) : SyncRun StarredRepo :=
  fetchStars env { s with lastFetchDate := "" } v remote

/-- The `github-fetch-prs-force` command: clear the PR watermark, save, then run
`fetchPullRequests`. -/
def forceFetchPullRequests (env : Env) (s : GitHubPluginSettings) (v : Vault)
    (remote : List (Except String (List PullRequest))) : SyncRun PullRequest :=
  fetchPullRequests env { s with lastPRFetchDate := "" } v remote

/-! Concrete fixtures used for concrete evaluations of the model. -/

/-- The empty vault. -/
def emptyVault : Vault := { files := [], folders := [] }

/-- A concrete host environment: fixed clock, identity renderer (the rendered
body is the template text itself), and no host failures. -/
def envOk : Env :=
  { nowISO := "2026-01-01T00:00:00.000Z", todayYMD := "2026-01-01",
    nowLocale := "1/1/2026, 12:00:00 AM", parseYMD := fun x => x,
    hbStar := fun t _ => t, hbPR := fun t _ => t,
    cFailStar := fun _ => false, fmFailStar := fun _ => false,
    cFailPR := fun _ => false, fmFailPR := fun _ => false }

/-- The same host environment, but `processFrontMatter` throws on every star
record. -/
def envFmThrow : Env := { envOk with fmFailStar := fun _ => true }

/-- Concrete valid settings. -/
def sampleSettings : GitHubPluginSettings :=
  { apiToken := "", username := "alice", targetDirectory := "gh",
    lastFetchDate := "", syncEnabled := true, syncPullRequests := true,
    lastPRFetchDate := "", prDirectory := "", useDefaultTemplateStar := true,
    templatePathStar := "", useDefaultTemplatePR := true, templatePathPR := "" }

/-- Settings with the username missing. -/
def invalidSettings : GitHubPluginSettings := { sampleSettings with username := "" }

/-- A concrete starred repository. -/
def sampleRepo : StarredRepo :=
  { name := "b", full_name := "a/b", html_url := "https://github.com/a/b",
    description := "", created_at := "2020-01-02T00:00:00Z", updated_at := "",
    language := "Go", stargazers_count := 7, topics := ["k8s"],
    owner := { login := "a", avatar_url := "" } }

/-- A vault that already holds the note of `sampleRepo` under `sampleSettings`. -/
def sampleVaultWithNote : Vault :=
  { files := [("gh/a-b.md", { body := "my notes", fm := [] })], folders := ["gh"] }

/-- A concrete pull request carrying a label whose name has a character outside
the `[a-z0-9/_-]` class. -/
def samplePR : PullRequest :=
  { id := 1, number := 7, title := "Add support", html_url := "u", state := "open",
    created_at := "", updated_at := "", closed_at := none, merged_at := none,
    draft := false, pull_request := none,
    repository_url := "https://api.github.com/repos/own/rep",
    labels := [{ name := "C++" }] }

/-! Helper lemmas about the vault operations. -/

theorem map_fst_update {β : Type} (g : (String × β) → (String × β))
    (hg : ∀ x, (g x).1 = x.1) (l : List (String × β)) :
    (l.map g).map Prod.fst = l.map Prod.fst := by
  induction l with
  | nil => rfl
  | cons a t ih => simp [hg, ih]

theorem any_fst_update {β : Type} (g : (String × β) → (String × β))
    (hg : ∀ x, (g x).1 = x.1) (l : List (String × β)) (q : String) :
    (l.map g).any (fun f => f.1 == q) = l.any (fun f => f.1 == q) := by
  induction l with
  | nil => rfl
  | cons a t ih => simp [hg, ih]

theorem find?_body_update {β : Type} (g : (String × β) → (String × β))
    (hg : ∀ x, (g x).1 = x.1) (bodyOf : β → String)
    (hb : ∀ x, bodyOf (g x).2 = bodyOf x.2) (l : List (String × β)) (q : String) :
    ((l.map g).find? (fun f => f.1 == q)).map (fun f => bodyOf f.2)
      = (l.find? (fun f => f.1 == q)).map (fun f => bodyOf f.2) := by
  induction l with
  | nil => rfl
  | cons a t ih =>
    by_cases h : a.1 = q
    · simp [List.find?, hg, hb, h]
    · simp only [List.map_cons, List.find?, hg]
      rw [show (a.1 == q) = false by simpa using h]
      exact ih

theorem setFm_files_map_fst (v : Vault) (p : String) (fs : List (String × FmVal)) :
    (v.setFm p fs).files.map Prod.fst = v.files.map Prod.fst := by
  apply map_fst_update
  intro x
  dsimp only
  split <;> rfl

theorem setFm_folders (v : Vault) (p : String) (fs : List (String × FmVal)) :
    (v.setFm p fs).folders = v.folders := rfl

theorem setFm_existsPath (v : Vault) (p : String) (fs : List (String × FmVal)) (q : String) :
    (v.setFm p fs).existsPath q = v.existsPath q := by
  unfold Vault.existsPath
  rw [setFm_folders]
  congr 1
  apply any_fst_update
  intro x
  dsimp only
  split <;> rfl

theorem setFm_getFile_body (v : Vault) (p : String) (fs : List (String × FmVal)) (q : String) :
    ((v.setFm p fs).getFile q).map VFile.body = (v.getFile q).map VFile.body := by
  unfold Vault.getFile Vault.setFm
  rw [Option.map_map, Option.map_map]
  exact find?_body_update _ (fun x => by dsimp only; split <;> rfl) VFile.body
    (fun x => by dsimp only; split <;> rfl) v.files q

theorem createFile_files_map_fst (v : Vault) (p c : String) :
    (v.createFile p c).files.map Prod.fst = v.files.map Prod.fst ++ [p] := by
  simp [Vault.createFile]

theorem createFile_existsPath_self (v : Vault) (p c : String) :
    (v.createFile p c).existsPath p = true := by
  simp [Vault.createFile, Vault.existsPath]

theorem createFile_existsPath_mono (v : Vault) (p c q : String)
    (h : v.existsPath q = true) : (v.createFile p c).existsPath q = true := by
  simp only [Vault.createFile, Vault.existsPath, List.any_append] at h ⊢
  rcases Bool.or_eq_true_iff.mp h with h1 | h2
  · rw [h1]
    rfl
  · rw [h2]
    simp

theorem find?_append_last {β : Type} (l : List (String × β)) (p : String) (x : β)
    (h : l.any (fun f => f.1 == p) = false) :
    ((l ++ [(p, x)]).find? (fun f => f.1 == p)) = some (p, x) := by
  induction l with
  | nil => simp [List.find?]
  | cons a t ih =>
    simp only [List.any_cons, Bool.or_eq_false_iff] at h
    simp only [List.cons_append, List.find?, h.1]
    exact ih h.2

theorem not_mem_fst_of_any_false {β : Type} (l : List (String × β)) (p : String)
    (h : l.any (fun f => f.1 == p) = false) : p ∉ l.map Prod.fst := by
  intro hmem
  rcases List.mem_map.mp hmem with ⟨x, hx, hfst⟩
  have h2 := List.any_eq_false.mp h x hx
  simp only [beq_iff_eq] at h2
  exact h2 hfst

theorem getFile_createFile_of_not_exists (v : Vault) (p c : String)
    (h : v.existsPath p = false) :
    (v.createFile p c).getFile p = some { body := c, fm := [] } := by
  simp only [Vault.existsPath, Bool.or_eq_false_iff] at h
  unfold Vault.getFile Vault.createFile
  rw [find?_append_last v.files p _ h.1]
  rfl

theorem ensureDirs_step_files (dirs : List String) :
    ∀ acc : Vault × String,
      ((dirs.foldl (fun (acc : Vault × String) d =>
          let cur := if acc.2 == "" then d else acc.2 ++ "/" ++ d
          (if acc.1.existsPath cur then acc.1
           else { acc.1 with folders := acc.1.folders ++ [cur] }, cur)) acc).1).files
        = acc.1.files := by
  induction dirs with
  | nil => intro acc; rfl
  | cons a t ih =>
    intro acc
    rw [List.foldl_cons, ih]
    dsimp only
    split <;> split <;> rfl

theorem ensureDirs_files (v : Vault) (d : String) : (ensureDirs v d).files = v.files :=
  ensureDirs_step_files _ (v, "")

theorem folders_append_existsPath_mono (v : Vault) (l : List String) (q : String)
    (h : v.existsPath q = true) :
    ({ v with folders := v.folders ++ l } : Vault).existsPath q = true := by
  simp only [Vault.existsPath] at h ⊢
  rcases Bool.or_eq_true_iff.mp h with h1 | h2
  · rw [h1]
    rfl
  · have h2m : q ∈ v.folders := by simpa using h2
    have hm : q ∈ v.folders ++ l := List.mem_append_left _ h2m
    simp [hm]

theorem ensureDirs_step_existsPath (dirs : List String) (q : String) :
    ∀ acc : Vault × String, acc.1.existsPath q = true →
      ((dirs.foldl (fun (acc : Vault × String) d =>
          let cur := if acc.2 == "" then d else acc.2 ++ "/" ++ d
          (if acc.1.existsPath cur then acc.1
           else { acc.1 with folders := acc.1.folders ++ [cur] }, cur)) acc).1).existsPath q
        = true := by
  induction dirs with
  | nil => intro acc h; exact h
  | cons a t ih =>
    intro acc h
    rw [List.foldl_cons]
    apply ih
    dsimp only
    split <;> split
    · exact h
    · exact folders_append_existsPath_mono _ _ _ h
    · exact h
    · exact folders_append_existsPath_mono _ _ _ h

theorem ensureDirs_existsPath_mono (v : Vault) (d q : String)
    (h : v.existsPath q = true) : (ensureDirs v d).existsPath q = true :=
  ensureDirs_step_existsPath _ _ (v, "") h

/-! Lemmas about the materializers. -/

theorem createNoteForRepo_fst (env : Env) (s : GitHubPluginSettings) (v : Vault)
    (repo : StarredRepo) :
    (createNoteForRepo env s v repo).1 = !(v.existsPath (repoNotePath s repo)) := rfl

theorem createNoteForPR_fst (env : Env) (s : GitHubPluginSettings) (v : Vault)
    (pr : PullRequest) :
    (createNoteForPR env s v pr).1
      = !((ensureDirs v (prRepoDir s pr)).existsPath (prNotePath s pr)) := rfl

theorem createNoteForRepo_exists_files_fst (env : Env) (s : GitHubPluginSettings)
    (v : Vault) (repo : StarredRepo)
    (h : v.existsPath (repoNotePath s repo) = true) :
    ((createNoteForRepo env s v repo).2).files.map Prod.fst = v.files.map Prod.fst := by
  simp only [createNoteForRepo, h, eq_self_iff_true, if_true]
  repeat' split
  all_goals first
    | rfl
    | exact setFm_files_map_fst v _ _

theorem createNoteForRepo_exists_getFile_body (env : Env) (s : GitHubPluginSettings)
    (v : Vault) (repo : StarredRepo)
    (h : v.existsPath (repoNotePath s repo) = true) (q : String) :
    (((createNoteForRepo env s v repo).2).getFile q).map VFile.body
      = (v.getFile q).map VFile.body := by
  simp only [createNoteForRepo, h, eq_self_iff_true, if_true]
  repeat' split
  all_goals first
    | rfl
    | exact setFm_getFile_body v _ _ q

theorem createNoteForRepo_exists_custom_frame (env : Env) (s : GitHubPluginSettings)
    (v : Vault) (repo : StarredRepo)
    (h : v.existsPath (repoNotePath s repo) = true)
    (hd : s.useDefaultTemplateStar = false) :
    (createNoteForRepo env s v repo).2 = v := by
  simp only [createNoteForRepo, h, hd, eq_self_iff_true, if_true, Bool.and_false,
    Bool.false_eq_true, if_false]
  split <;> rfl

theorem createNoteForRepo_create_body (env : Env) (s : GitHubPluginSettings)
    (v : Vault) (repo : StarredRepo)
    (hex : v.existsPath (repoNotePath s repo) = false)
    (hc : env.cFailStar repo = false) :
    (((createNoteForRepo env s v repo).2).getFile (repoNotePath s repo)).map VFile.body
      = some (env.hbStar
          (readTemplate v s.useDefaultTemplateStar s.templatePathStar starDefaultTemplate)
          repo) := by
  have hbase := getFile_createFile_of_not_exists v (repoNotePath s repo)
    (env.hbStar (readTemplate v s.useDefaultTemplateStar s.templatePathStar starDefaultTemplate)
      repo) hex
  simp only [createNoteForRepo, hex, hc, Bool.false_eq_true, if_false]
  repeat' split
  all_goals first
    | (rw [hbase]; rfl)
    | (rw [setFm_getFile_body, hbase]; rfl)

theorem createNoteForRepo_existsPath_mono (env : Env) (s : GitHubPluginSettings)
    (v : Vault) (repo : StarredRepo) (q : String)
    (h : v.existsPath q = true) :
    ((createNoteForRepo env s v repo).2).existsPath q = true := by
  simp only [createNoteForRepo]
  repeat' split
  all_goals first
    | exact h
    | (rw [setFm_existsPath]
       first
         | exact h
         | exact createFile_existsPath_mono _ _ _ _ h)
    | exact createFile_existsPath_mono _ _ _ _ h

theorem createNoteForRepo_path_after (env : Env) (s : GitHubPluginSettings)
    (v : Vault) (repo : StarredRepo)
    (hc : env.cFailStar repo = false) :
    ((createNoteForRepo env s v repo).2).existsPath (repoNotePath s repo) = true := by
  simp only [createNoteForRepo, hc, Bool.false_eq_true, if_false]
  repeat' split
  all_goals first
    | assumption
    | (rw [setFm_existsPath]
       first
         | assumption
         | exact createFile_existsPath_self _ _ _)
    | exact createFile_existsPath_self _ _ _

theorem createNoteForRepo_files_fst_char (env : Env) (s : GitHubPluginSettings)
    (v : Vault) (repo : StarredRepo) :
    ((createNoteForRepo env s v repo).2).files.map Prod.fst = v.files.map Prod.fst ∨
    (v.existsPath (repoNotePath s repo) = false ∧
     repoNotePath s repo ∉ v.files.map Prod.fst ∧
     ((createNoteForRepo env s v repo).2).files.map Prod.fst
       = v.files.map Prod.fst ++ [repoNotePath s repo]) := by
  by_cases hex : v.existsPath (repoNotePath s repo) = true
  · exact Or.inl (createNoteForRepo_exists_files_fst env s v repo hex)
  · rw [Bool.not_eq_true] at hex
    have hnm : repoNotePath s repo ∉ v.files.map Prod.fst := by
      apply not_mem_fst_of_any_false
      have h2 := hex
      simp only [Vault.existsPath, Bool.or_eq_false_iff] at h2
      exact h2.1
    by_cases hc : env.cFailStar repo = true
    · left
      simp only [createNoteForRepo, hex, hc, Bool.false_eq_true, if_false, if_true,
        eq_self_iff_true, Bool.false_and]
    · right
      refine ⟨hex, hnm, ?_⟩
      rw [Bool.not_eq_true] at hc
      simp only [createNoteForRepo, hex, hc, Bool.false_eq_true, if_false, Bool.true_and]
      repeat' split
      all_goals first
        | exact createFile_files_map_fst _ _ _
        | (rw [setFm_files_map_fst]
           exact createFile_files_map_fst _ _ _)

/-! Lemmas about the page loop. -/

theorem nodup_append_singleton {β : Type} (l : List β) (a : β)
    (h : l.Nodup) (ha : a ∉ l) : (l ++ [a]).Nodup := by
  rw [List.nodup_append]
  refine ⟨h, List.nodup_singleton a, ?_⟩
  intro x hx hy
  simp only [List.mem_singleton] at hy
  subst hy
  exact ha hx

theorem processItems_cons_go {α : Type} (mat : Vault → α → Bool × Vault) (ff : Bool)
    (a : α) (t : List α) (v : Vault) (hr : (!ff && !(mat v a).1) = false) :
    processItems mat ff (a :: t) v =
      ⟨(processItems mat ff t ((mat v a).2)).vault,
       (processItems mat ff t ((mat v a).2)).count + 1,
       (processItems mat ff t ((mat v a).2)).stopped,
       (a, (mat v a).1) :: (processItems mat ff t ((mat v a).2)).outcomes⟩ := by
  simp [processItems, hr]

theorem processItems_stop_head {α : Type} (mat : Vault → α → Bool × Vault)
    (a : α) (t : List α) (v : Vault) (h : (mat v a).1 = false) :
    processItems mat false (a :: t) v = ⟨(mat v a).2, 0, true, [(a, false)]⟩ := by
  simp [processItems, h]

theorem processItems_false_spec {α : Type} (mat : Vault → α → Bool × Vault)
    (its : List α) (v : Vault) :
    ((processItems mat false its v).stopped = false →
      (processItems mat false its v).outcomes.map Prod.fst = its ∧
      (processItems mat false its v).outcomes.map Prod.snd
        = List.replicate its.length true) ∧
    ((processItems mat false its v).stopped = true →
      ∃ m, m + 1 ≤ its.length ∧
        (processItems mat false its v).outcomes.map Prod.fst = its.take (m + 1) ∧
        (processItems mat false its v).outcomes.map Prod.snd
          = List.replicate m true ++ [false]) := by
  induction its generalizing v with
  | nil =>
    refine ⟨fun _ => ⟨rfl, rfl⟩, fun h => ?_⟩
    simp [processItems] at h
  | cons a t ih =>
    by_cases hr : (mat v a).1 = true
    · rw [processItems_cons_go mat false a t v (by simp [hr])]
      dsimp only
      constructor
      · intro hs
        rcases (ih ((mat v a).2)).1 hs with ⟨hf, hsnd⟩
        refine ⟨by simp [hf], ?_⟩
        simp [hsnd, hr, List.replicate_succ]
      · intro hs
        rcases (ih ((mat v a).2)).2 hs with ⟨m, hm, hf, hsnd⟩
        refine ⟨m + 1, by simpa using Nat.succ_le_succ hm, ?_, ?_⟩
        · simp [hf, List.take_succ_cons]
        · simp [hsnd, hr, List.replicate_succ]
    · rw [Bool.not_eq_true] at hr
      rw [processItems_stop_head mat a t v hr]
      dsimp only
      constructor
      · intro hs
        simp at hs
      · intro _
        refine ⟨0, Nat.succ_le_succ (Nat.zero_le _), ?_, ?_⟩
        · simp
        · simp

theorem processItems_true_spec {α : Type} (mat : Vault → α → Bool × Vault)
    (its : List α) (v : Vault) :
    (processItems mat true its v).stopped = false ∧
    (processItems mat true its v).outcomes.map Prod.fst = its := by
  induction its generalizing v with
  | nil => exact ⟨rfl, rfl⟩
  | cons a t ih =>
    rw [processItems_cons_go mat true a t v (by simp)]
    exact ⟨(ih _).1, by simp [(ih _).2]⟩

theorem processItems_mono {α : Type} (mat : Vault → α → Bool × Vault) (P : Vault → Prop)
    (hmat : ∀ v it, P v → P ((mat v it).2)) (ff : Bool) (its : List α) (v : Vault)
    (h : P v) : P ((processItems mat ff its v).vault) := by
  induction its generalizing v with
  | nil => exact h
  | cons a t ih =>
    simp only [processItems]
    split
    · exact hmat v a h
    · exact ih _ (hmat v a h)

theorem fetchPages_nil {α : Type} (mat : Vault → α → Bool × Vault) (ff : Bool) (v : Vault) :
    fetchPages mat ff ([] : List (Except String (List α))) v = .ok ⟨v, 0, 1, false, []⟩ := rfl

theorem fetchPages_cons_stop {α : Type} (mat : Vault → α → Bool × Vault) (ff : Bool)
    (p : List α) (ps : List (Except String (List α))) (v : Vault)
    (h : (processItems mat ff p v).stopped = true) :
    fetchPages mat ff (.ok p :: ps) v
      = .ok ⟨(processItems mat ff p v).vault, (processItems mat ff p v).count, 1, true,
             (processItems mat ff p v).outcomes⟩ := by
  simp [fetchPages, h]

theorem fetchPages_cons_short {α : Type} (mat : Vault → α → Bool × Vault) (ff : Bool)
    (p : List α) (ps : List (Except String (List α))) (v : Vault)
    (h : (processItems mat ff p v).stopped = false) (hl : p.length ≠ 100) :
    fetchPages mat ff (.ok p :: ps) v
      = .ok ⟨(processItems mat ff p v).vault, (processItems mat ff p v).count, 1, false,
             (processItems mat ff p v).outcomes⟩ := by
  simp [fetchPages, h, hl]

theorem fetchPages_cons_full {α : Type} (mat : Vault → α → Bool × Vault) (ff : Bool)
    (p : List α) (ps : List (Except String (List α))) (v : Vault)
    (h : (processItems mat ff p v).stopped = false) (hl : p.length = 100) :
    fetchPages mat ff (.ok p :: ps) v
      = match fetchPages mat ff ps (processItems mat ff p v).vault with
        | .error (e, ve, n) => .error (e, ve, n + 1)
        | .ok r => .ok ⟨r.vault, (processItems mat ff p v).count + r.count,
                        r.pagesRequested + 1, r.stopped,
                        (processItems mat ff p v).outcomes ++ r.outcomes⟩ := by
  simp [fetchPages, h, hl]

theorem fetchPages_mono {α : Type} (mat : Vault → α → Bool × Vault) (P : Vault → Prop)
    (hmat : ∀ v it, P v → P ((mat v it).2)) (ff : Bool)
    (pages : List (Except String (List α))) (v : Vault) (h : P v) :
    ∀ r, fetchPages mat ff pages v = .ok r → P r.vault := by
  induction pages generalizing v with
  | nil =>
    intro r hr
    rw [fetchPages_nil] at hr
    cases hr
    exact h
  | cons pg ps ih =>
    intro r hr
    match pg with
    | .error e => simp [fetchPages] at hr
    | .ok p =>
      by_cases hst : (processItems mat ff p v).stopped = true
      · rw [fetchPages_cons_stop mat ff p ps v hst] at hr
        cases hr
        exact processItems_mono mat P hmat ff p v h
      · rw [Bool.not_eq_true] at hst
        by_cases hl : p.length = 100
        · rw [fetchPages_cons_full mat ff p ps v hst hl] at hr
          have hP1 : P (processItems mat ff p v).vault :=
            processItems_mono mat P hmat ff p v h
          cases hrec : fetchPages mat ff ps (processItems mat ff p v).vault with
          | error E =>
            obtain ⟨e, ve, n⟩ := E
            rw [hrec] at hr
            simp at hr
          | ok r' =>
            rw [hrec] at hr
            cases hr
            exact ih _ hP1 r' hrec
        · rw [fetchPages_cons_short mat ff p ps v hst hl] at hr
          cases hr
          exact processItems_mono mat P hmat ff p v h

/-- Spec-side formulation: the 1-based index of the first page request that the
full-backfill loop answers with a short page (one whose length differs from the
100-item page size), i.e. the number of page requests a first fetch issues. -/
def firstShortIdx {α : Type} : List (List α) → Nat
  | [] => 1
  | p :: ps => if p.length == 100 then firstShortIdx ps + 1 else 1

theorem firstShortIdx_pos {α : Type} (pages : List (List α)) :
    1 ≤ firstShortIdx pages := by
  cases pages with
  | nil => exact Nat.le_refl 1
  | cons p ps =>
    unfold firstShortIdx
    split
    · exact Nat.succ_le_succ (Nat.zero_le _)
    · exact Nat.le_refl 1

theorem firstShortIdx_cons_full {α : Type} (p : List α) (ps : List (List α))
    (h : p.length = 100) : firstShortIdx (p :: ps) = firstShortIdx ps + 1 := by
  have e : firstShortIdx (p :: ps)
      = if (p.length == 100) = true then firstShortIdx ps + 1 else 1 := rfl
  rw [e, if_pos (by simpa using h)]

theorem firstShortIdx_cons_short {α : Type} (p : List α) (ps : List (List α))
    (h : p.length ≠ 100) : firstShortIdx (p :: ps) = 1 := by
  have e : firstShortIdx (p :: ps)
      = if (p.length == 100) = true then firstShortIdx ps + 1 else 1 := rfl
  rw [e, if_neg (by simpa using h)]

theorem firstShortIdx_full_take {α : Type} (pages : List (List α)) :
    ∀ p ∈ pages.take (firstShortIdx pages - 1), p.length = 100 := by
  induction pages with
  | nil => intro p hp; simp at hp
  | cons q ps ih =>
    intro p hp
    unfold firstShortIdx at hp
    by_cases hq : q.length = 100
    · rw [if_pos (by simpa using hq)] at hp
      obtain ⟨k, hk⟩ : ∃ k, firstShortIdx ps = k + 1 :=
        ⟨firstShortIdx ps - 1, (Nat.succ_pred_eq_of_pos (firstShortIdx_pos ps)).symm⟩
      rw [hk] at hp
      simp only [Nat.add_sub_cancel, List.take_succ_cons, List.mem_cons] at hp
      rcases hp with hp | hp
      · rw [hp]; exact hq
      · exact ih p (by rw [hk]; simpa using hp)
    · rw [if_neg (by simpa using hq)] at hp
      simp at hp

theorem firstShortIdx_short {α : Type} (pages : List (List α)) :
    (pages.getD (firstShortIdx pages - 1) []).length ≠ 100 := by
  induction pages with
  | nil => simp
  | cons q ps ih =>
    unfold firstShortIdx
    by_cases hq : q.length = 100
    · rw [if_pos (by simpa using hq)]
      obtain ⟨k, hk⟩ : ∃ k, firstShortIdx ps = k + 1 :=
        ⟨firstShortIdx ps - 1, (Nat.succ_pred_eq_of_pos (firstShortIdx_pos ps)).symm⟩
      rw [hk]
      simp only [Nat.add_sub_cancel, List.getD]
      have ih2 := ih
      rw [hk] at ih2
      simpa [List.getD] using ih2
    · rw [if_neg (by simpa using hq)]
      simpa using hq

theorem outcomes_len_of_map_fst {α : Type} (o : List (α × Bool)) (l : List α)
    (h : o.map Prod.fst = l) : o.length = l.length := by
  have h2 := congrArg List.length h
  simpa using h2

theorem fetchPages_true_spec {α : Type} (mat : Vault → α → Bool × Vault)
    (pages : List (List α)) (v : Vault) :
    ∃ r, fetchPages mat true (pages.map Except.ok) v = .ok r ∧
      r.stopped = false ∧
      r.pagesRequested = firstShortIdx pages ∧
      r.outcomes.map Prod.fst = (pages.take r.pagesRequested).flatten := by
  induction pages generalizing v with
  | nil =>
    exact ⟨⟨v, 0, 1, false, []⟩, rfl, rfl, rfl, rfl⟩
  | cons p ps ih =>
    have hproc := processItems_true_spec mat p v
    by_cases hl : p.length = 100
    · rcases ih ((processItems mat true p v).vault) with ⟨r', hr', hst', hpr', hf'⟩
      refine ⟨⟨r'.vault, (processItems mat true p v).count + r'.count,
              r'.pagesRequested + 1, r'.stopped,
              (processItems mat true p v).outcomes ++ r'.outcomes⟩, ?_, hst', ?_, ?_⟩
      · rw [List.map_cons, fetchPages_cons_full mat true p (ps.map .ok) v hproc.1 hl, hr']
      · dsimp only
        rw [hpr', firstShortIdx_cons_full p ps hl]
      · dsimp only
        rw [List.map_append, hproc.2, hf', hpr']
        rfl
    · refine ⟨⟨(processItems mat true p v).vault, (processItems mat true p v).count, 1, false,
              (processItems mat true p v).outcomes⟩, ?_, rfl, ?_, ?_⟩
      · rw [List.map_cons, fetchPages_cons_short mat true p (ps.map .ok) v hproc.1 hl]
      · dsimp only
        rw [firstShortIdx_cons_short p ps hl]
      · dsimp only
        simp [hproc.2]

theorem fetchPages_false_spec {α : Type} (mat : Vault → α → Bool × Vault)
    (pages : List (List α)) (v : Vault) :
    ∃ r, fetchPages mat false (pages.map Except.ok) v = .ok r ∧
      1 ≤ r.pagesRequested ∧
      (r.stopped = false →
        r.outcomes.map Prod.snd = List.replicate r.outcomes.length true ∧
        r.outcomes.map Prod.fst = (pages.take r.pagesRequested).flatten) ∧
      (r.stopped = true →
        ∃ m, m + 1 ≤ (pages.getD (r.pagesRequested - 1) []).length ∧
          r.outcomes.map Prod.snd
            = List.replicate (r.outcomes.length - 1) true ++ [false] ∧
          r.outcomes.map Prod.fst
            = (pages.take (r.pagesRequested - 1)).flatten
               ++ (pages.getD (r.pagesRequested - 1) []).take (m + 1)) := by
  induction pages generalizing v with
  | nil =>
    exact ⟨⟨v, 0, 1, false, []⟩, rfl, Nat.le_refl 1, fun _ => ⟨rfl, rfl⟩,
           fun h => by simp at h⟩
  | cons p ps ih =>
    have hspec := processItems_false_spec mat p v
    by_cases hst : (processItems mat false p v).stopped = true
    · rcases hspec.2 hst with ⟨m, hm, hf, hsnd⟩
      have hlen : (processItems mat false p v).outcomes.length = m + 1 := by
        rw [outcomes_len_of_map_fst _ _ hf, List.length_take]
        omega
      refine ⟨⟨(processItems mat false p v).vault, (processItems mat false p v).count, 1, true,
              (processItems mat false p v).outcomes⟩, ?_, Nat.le_refl 1,
              fun h => by simp at h, fun _ => ⟨m, ?_, ?_, ?_⟩⟩
      · rw [List.map_cons, fetchPages_cons_stop mat false p (ps.map .ok) v hst]
      · simpa using hm
      · dsimp only
        rw [hlen]
        simpa using hsnd
      · dsimp only
        simpa using hf
    · rw [Bool.not_eq_true] at hst
      rcases hspec.1 hst with ⟨hf, hsnd⟩
      have hlo : (processItems mat false p v).outcomes.length = p.length :=
        outcomes_len_of_map_fst _ _ hf
      by_cases hl : p.length = 100
      · rcases ih ((processItems mat false p v).vault) with ⟨r', hr', h1', hA', hB'⟩
        refine ⟨⟨r'.vault, (processItems mat false p v).count + r'.count,
                r'.pagesRequested + 1, r'.stopped,
                (processItems mat false p v).outcomes ++ r'.outcomes⟩, ?_, ?_, ?_, ?_⟩
        · rw [List.map_cons, fetchPages_cons_full mat false p (ps.map .ok) v hst hl, hr']
        · exact Nat.succ_le_succ (Nat.zero_le _)
        · intro hs
          rcases hA' hs with ⟨hsnd', hf'⟩
          constructor
          · dsimp only
            rw [List.map_append, hsnd, hsnd', List.length_append, hlo,
              ← List.replicate_add]
          · dsimp only
            rw [List.map_append, hf, hf']
            rfl
        · intro hs
          rcases hB' hs with ⟨m, hm, hsnd', hf'⟩
          obtain ⟨k, hk⟩ : ∃ k, r'.pagesRequested = k + 1 :=
            ⟨r'.pagesRequested - 1, (Nat.succ_pred_eq_of_pos h1').symm⟩
          have hlr : 1 ≤ r'.outcomes.length := by
            have h2 := congrArg List.length hsnd'
            simp only [List.length_map, List.length_append, List.length_replicate,
              List.length_singleton] at h2
            omega
          refine ⟨m, ?_, ?_, ?_⟩
          · dsimp only
            rw [hk]
            simpa [List.getD] using (by rw [hk] at hm; simpa using hm :
              m + 1 ≤ (ps.getD k []).length)
          · dsimp only
            rw [List.map_append, hsnd, hsnd', ← List.append_assoc, ← List.replicate_add,
              List.length_append, hlo]
            have harith : p.length + (r'.outcomes.length - 1)
                = p.length + r'.outcomes.length - 1 := by omega
            rw [harith]
          · dsimp only
            rw [List.map_append, hf, hf', hk]
            simp only [Nat.add_sub_cancel, List.take_succ_cons, List.flatten_cons,
              List.getD, List.append_assoc]
            rfl
      · refine ⟨⟨(processItems mat false p v).vault, (processItems mat false p v).count, 1,
                false, (processItems mat false p v).outcomes⟩, ?_, Nat.le_refl 1,
                fun _ => ⟨?_, ?_⟩, fun h => by simp at h⟩
        · rw [List.map_cons, fetchPages_cons_short mat false p (ps.map .ok) v hst hl]
        · dsimp only
          rw [hsnd, hlo]
        · dsimp only
          simp [hf]

theorem processItems_paths {α : Type} (mat : Vault → α → Bool × Vault) (pathOf : α → String)
    (hmat : ∀ v it, ((mat v it).2).files.map Prod.fst = v.files.map Prod.fst ∨
        (pathOf it ∉ v.files.map Prod.fst ∧
         ((mat v it).2).files.map Prod.fst = v.files.map Prod.fst ++ [pathOf it]))
    (ff : Bool) (its : List α) (v : Vault) :
    ∃ ext, ((processItems mat ff its v).vault).files.map Prod.fst
        = v.files.map Prod.fst ++ ext ∧
      (∀ q ∈ ext, ∃ it ∈ its, pathOf it = q) ∧
      ((v.files.map Prod.fst).Nodup →
        (((processItems mat ff its v).vault).files.map Prod.fst).Nodup) := by
  induction its generalizing v with
  | nil => exact ⟨[], by simp [processItems], by simp, fun h => h⟩
  | cons a t ih =>
    have h1 : ∃ e1, ((mat v a).2).files.map Prod.fst = v.files.map Prod.fst ++ e1 ∧
        (∀ q ∈ e1, pathOf a = q) ∧
        ((v.files.map Prod.fst).Nodup → (((mat v a).2).files.map Prod.fst).Nodup) := by
      rcases hmat v a with h | ⟨hnm, h⟩
      · exact ⟨[], by simp [h], by simp, fun hn => by rw [h]; exact hn⟩
      · exact ⟨[pathOf a], h, by simp, fun hn => by
          rw [h]; exact nodup_append_singleton _ _ hn hnm⟩
    rcases h1 with ⟨e1, he1, hq1, hn1⟩
    simp only [processItems]
    split
    · exact ⟨e1, he1, fun q hq => ⟨a, List.mem_cons_self a t, hq1 q hq⟩, hn1⟩
    · rcases ih ((mat v a).2) with ⟨ext, hext, hqext, hnext⟩
      refine ⟨e1 ++ ext, ?_, ?_, fun hn => hnext (hn1 hn)⟩
      · rw [hext, he1, List.append_assoc]
      · intro q hq
        rcases List.mem_append.mp hq with h | h
        · exact ⟨a, List.mem_cons_self a t, hq1 q h⟩
        · rcases hqext q h with ⟨it, hit, hp⟩
          exact ⟨it, List.mem_cons_of_mem a hit, hp⟩

theorem fetchPages_paths {α : Type} (mat : Vault → α → Bool × Vault) (pathOf : α → String)
    (hmat : ∀ v it, ((mat v it).2).files.map Prod.fst = v.files.map Prod.fst ∨
        (pathOf it ∉ v.files.map Prod.fst ∧
         ((mat v it).2).files.map Prod.fst = v.files.map Prod.fst ++ [pathOf it]))
    (ff : Bool) (pages : List (List α)) (v : Vault) :
    ∀ r, fetchPages mat ff (pages.map Except.ok) v = .ok r →
      ∃ ext, r.vault.files.map Prod.fst = v.files.map Prod.fst ++ ext ∧
        (∀ q ∈ ext, ∃ it ∈ pages.flatten, pathOf it = q) ∧
        ((v.files.map Prod.fst).Nodup → (r.vault.files.map Prod.fst).Nodup) := by
  induction pages generalizing v with
  | nil =>
    intro r hr
    rw [List.map_nil, fetchPages_nil] at hr
    cases hr
    exact ⟨[], by simp, by simp, fun h => h⟩
  | cons p ps ih =>
    intro r hr
    rcases processItems_paths mat pathOf hmat ff p v with ⟨e1, he1, hq1, hn1⟩
    by_cases hst : (processItems mat ff p v).stopped = true
    · rw [List.map_cons, fetchPages_cons_stop mat ff p _ v hst] at hr
      cases hr
      refine ⟨e1, he1, ?_, hn1⟩
      intro q hq
      rcases hq1 q hq with ⟨it, hit, hp2⟩
      exact ⟨it, by rw [List.flatten_cons]; exact List.mem_append_left _ hit, hp2⟩
    · rw [Bool.not_eq_true] at hst
      by_cases hl : p.length = 100
      · rw [List.map_cons, fetchPages_cons_full mat ff p _ v hst hl] at hr
        cases hrec : fetchPages mat ff (ps.map .ok) (processItems mat ff p v).vault with
        | error E =>
          obtain ⟨e, ve, n⟩ := E
          rw [hrec] at hr
          simp at hr
        | ok r' =>
          rw [hrec] at hr
          cases hr
          rcases ih _ r' hrec with ⟨ext, hext, hqext, hnext⟩
          refine ⟨e1 ++ ext, ?_, ?_, fun hn => hnext (hn1 hn)⟩
          · dsimp only
            rw [hext, he1, List.append_assoc]
          · intro q hq
            rcases List.mem_append.mp hq with h | h
            · rcases hq1 q h with ⟨it, hit, hp2⟩
              exact ⟨it, by rw [List.flatten_cons]; exact List.mem_append_left _ hit, hp2⟩
            · rcases hqext q h with ⟨it, hit, hp2⟩
              exact ⟨it, by rw [List.flatten_cons]; exact List.mem_append_right _ hit, hp2⟩
      · rw [List.map_cons, fetchPages_cons_short mat ff p _ v hst hl] at hr
        cases hr
        refine ⟨e1, he1, ?_, hn1⟩
        intro q hq
        rcases hq1 q hq with ⟨it, hit, hp2⟩
        exact ⟨it, by rw [List.flatten_cons]; exact List.mem_append_left _ hit, hp2⟩

theorem createNoteForRepo_paths_hyp (env : Env) (s : GitHubPluginSettings) :
    ∀ (v : Vault) (repo : StarredRepo),
      ((createNoteForRepo env s v repo).2).files.map Prod.fst = v.files.map Prod.fst ∨
      (repoNotePath s repo ∉ v.files.map Prod.fst ∧
       ((createNoteForRepo env s v repo).2).files.map Prod.fst
         = v.files.map Prod.fst ++ [repoNotePath s repo]) := by
  intro v repo
  rcases createNoteForRepo_files_fst_char env s v repo with h | ⟨_, hnm, h⟩
  · exact Or.inl h
  · exact Or.inr ⟨hnm, h⟩

theorem processItems_cons_vault {α : Type} (mat : Vault → α → Bool × Vault) (ff : Bool)
    (a : α) (t : List α) (v : Vault) :
    (processItems mat ff (a :: t) v).vault = ((mat v a).2) ∨
    (processItems mat ff (a :: t) v).vault
      = (processItems mat ff t ((mat v a).2)).vault := by
  simp only [processItems]
  split
  · exact Or.inl rfl
  · exact Or.inr rfl

theorem fetchPages_ok_cons_vault {α : Type} (mat : Vault → α → Bool × Vault) (ff : Bool)
    (p : List α) (ps : List (Except String (List α))) (v : Vault) :
    ∀ r, fetchPages mat ff (.ok p :: ps) v = .ok r →
      r.vault = (processItems mat ff p v).vault ∨
      ∃ r', fetchPages mat ff ps ((processItems mat ff p v).vault) = .ok r' ∧
        r.vault = r'.vault := by
  intro r hr
  by_cases hst : (processItems mat ff p v).stopped = true
  · rw [fetchPages_cons_stop mat ff p ps v hst] at hr
    cases hr
    exact Or.inl rfl
  · rw [Bool.not_eq_true] at hst
    by_cases hl : p.length = 100
    · rw [fetchPages_cons_full mat ff p ps v hst hl] at hr
      cases hrec : fetchPages mat ff ps (processItems mat ff p v).vault with
      | error E =>
        obtain ⟨e, ve, n⟩ := E
        rw [hrec] at hr
        simp at hr
      | ok r' =>
        rw [hrec] at hr
        cases hr
        exact Or.inr ⟨r', rfl, rfl⟩
    · rw [fetchPages_cons_short mat ff p ps v hst hl] at hr
      cases hr
      exact Or.inl rfl

theorem fetchPages_head_exists (env : Env) (s : GitHubPluginSettings) (ff : Bool)
    (a : StarredRepo) (t : List StarredRepo) (ps : List (List StarredRepo)) (v : Vault)
    (hc : env.cFailStar a = false) :
    ∀ r, fetchPages (fun vt rp => createNoteForRepo env s vt rp) ff
        (((a :: t) :: ps).map Except.ok) v = .ok r →
      r.vault.existsPath (repoNotePath s a) = true := by
  intro r hr
  have hmono : ∀ (vt : Vault) (rp : StarredRepo),
      vt.existsPath (repoNotePath s a) = true →
      ((createNoteForRepo env s vt rp).2).existsPath (repoNotePath s a) = true :=
    fun vt rp h => createNoteForRepo_existsPath_mono env s vt rp _ h
  have hP1 : ((processItems (fun vt rp => createNoteForRepo env s vt rp) ff (a :: t)
      v).vault).existsPath (repoNotePath s a) = true := by
    rcases processItems_cons_vault (fun vt rp => createNoteForRepo env s vt rp) ff a t v
      with h | h
    · rw [h]
      exact createNoteForRepo_path_after env s v a hc
    · rw [h]
      exact processItems_mono _ (fun vv => vv.existsPath (repoNotePath s a) = true)
        hmono ff t _ (createNoteForRepo_path_after env s v a hc)
  rw [List.map_cons] at hr
  rcases fetchPages_ok_cons_vault (fun vt rp => createNoteForRepo env s vt rp) ff (a :: t)
      (ps.map .ok) v r hr with h | ⟨r', hr', hv⟩
  · rw [h]
    exact hP1
  · rw [hv]
    exact fetchPages_mono _ (fun vv => vv.existsPath (repoNotePath s a) = true)
      hmono ff (ps.map .ok) _ hP1 r' hr'

/-! Lemmas about the top-level drivers. -/

theorem fetchStars_disabled (env : Env) (s : GitHubPluginSettings) (v : Vault)
    (remote : List (Except String (List StarredRepo))) (hs : s.syncEnabled = false) :
    fetchStars env s v remote
      = ⟨s, v, ["Sync is disabled. Enable it in settings to fetch stars."], 0,
         .skippedDisabled⟩ := by
  simp [fetchStars, hs]

theorem fetchStars_invalid (env : Env) (s : GitHubPluginSettings) (v : Vault)
    (remote : List (Except String (List StarredRepo))) (hs : s.syncEnabled = true)
    (hv : settingsAreValid s = false) :
    fetchStars env s v remote
      = ⟨s, v, ["Please set both GitHub username and target directory in settings."], 0,
         .skippedInvalid⟩ := by
  simp [fetchStars, hs, hv]

theorem fetchStars_go (env : Env) (s : GitHubPluginSettings) (v : Vault)
    (remote : List (Except String (List StarredRepo))) (hs : s.syncEnabled = true)
    (hv : settingsAreValid s = true) :
    fetchStars env s v remote
      = match fetchPages (fun vt repo => createNoteForRepo env s vt repo)
          (s.lastFetchDate == "") remote (ensureDirs v s.targetDirectory) with
        | .error (e, ve, n) => ⟨s, ve, ["Error fetching GitHub stars: " ++ e], n, .failed e⟩
        | .ok r => ⟨{ s with lastFetchDate := env.nowISO }, r.vault,
            if r.count != 0 then ["Total " ++ toString r.count ++ " GitHub stars"] else [],
            r.pagesRequested, .ran r⟩ := by
  simp [fetchStars, hs, hv]

theorem fetchPullRequests_disabled (env : Env) (s : GitHubPluginSettings) (v : Vault)
    (remote : List (Except String (List PullRequest))) (hs : s.syncEnabled = false) :
    fetchPullRequests env s v remote
      = ⟨s, v, ["Sync is disabled. Enable it in settings to fetch pull requests."], 0,
         .skippedDisabled⟩ := by
  simp [fetchPullRequests, hs]

theorem fetchPullRequests_invalid (env : Env) (s : GitHubPluginSettings) (v : Vault)
    (remote : List (Except String (List PullRequest))) (hs : s.syncEnabled = true)
    (hv : settingsAreValid s = false) :
    fetchPullRequests env s v remote
      = ⟨s, v, ["Please set both GitHub username and target directory in settings."], 0,
         .skippedInvalid⟩ := by
  simp [fetchPullRequests, hs, hv]

theorem fetchPullRequests_go (env : Env) (s : GitHubPluginSettings) (v : Vault)
    (remote : List (Except String (List PullRequest))) (hs : s.syncEnabled = true)
    (hv : settingsAreValid s = true) :
    fetchPullRequests env s v remote
      = match fetchPages (fun vt pr => createNoteForPR env s vt pr)
          (s.lastPRFetchDate == "") remote (ensureDirs v (prBaseDir s)) with
        | .error (e, ve, n) => ⟨s, ve, ["Error fetching pull requests: " ++ e], n, .failed e⟩
        | .ok r => ⟨{ s with lastPRFetchDate := env.nowISO }, r.vault,
            if r.count != 0 then ["Total " ++ toString r.count ++ " pull requests"] else [],
            r.pagesRequested, .ran r⟩ := by
  simp [fetchPullRequests, hs, hv]

theorem fetchPages_all_ok {α : Type} (mat : Vault → α → Bool × Vault) (ff : Bool)
    (pages : List (List α)) (v : Vault) :
    ∃ r, fetchPages mat ff (pages.map Except.ok) v = .ok r := by
  induction pages generalizing v with
  | nil => exact ⟨⟨v, 0, 1, false, []⟩, rfl⟩
  | cons p ps ih =>
    by_cases hst : (processItems mat ff p v).stopped = true
    · exact ⟨_, by rw [List.map_cons, fetchPages_cons_stop mat ff p _ v hst]⟩
    · rw [Bool.not_eq_true] at hst
      by_cases hl : p.length = 100
      · rcases ih ((processItems mat ff p v).vault) with ⟨r', hr'⟩
        exact ⟨⟨r'.vault, (processItems mat ff p v).count + r'.count, r'.pagesRequested + 1,
                r'.stopped, (processItems mat ff p v).outcomes ++ r'.outcomes⟩,
               by rw [List.map_cons, fetchPages_cons_full mat ff p _ v hst hl, hr']⟩
      · exact ⟨_, by rw [List.map_cons, fetchPages_cons_short mat ff p _ v hst hl]⟩

theorem getD_length_le {α : Type} (pages : List (List α)) (i : Nat)
    (hcap : ∀ p ∈ pages, p.length ≤ 100) : (pages.getD i []).length ≤ 100 := by
  induction pages generalizing i with
  | nil => simp [List.getD]
  | cons p ps ih =>
    cases i with
    | zero => exact hcap p (List.mem_cons_self p ps)
    | succ j =>
      simp only [List.getD_cons_succ]
      exact ih j (fun q hq => hcap q (List.mem_cons_of_mem p hq))

/-! Lemmas about the tag strings. -/

theorem chars_of_const (l : List Char) (hl : l.all isTagChar = true) :
    ∀ c ∈ l, isTagChar c = true :=
  fun c hc => List.all_eq_true.mp hl c hc

theorem no_space_of_const (l : List Char) (hl : l.all (fun c => !jsSpace c) = true) :
    ∀ c ∈ l, jsSpace c = false := by
  intro c hc
  have h2 := List.all_eq_true.mp hl c hc
  simpa using h2

theorem normalizeTag_chars (x : String) :
    ∀ c ∈ (normalizeTag x).data, isTagChar c = true := by
  intro c hc
  simp only [normalizeTag] at hc
  rcases List.mem_map.mp hc with ⟨c0, _, hc0⟩
  by_cases h : isTagChar c0 = true
  · rw [if_pos h] at hc0
    rw [← hc0]
    exact h
  · rw [if_neg h] at hc0
    rw [← hc0]
    rfl

theorem starTags_chars (repo : StarredRepo) :
    ∀ t ∈ starTags repo, ∀ c ∈ t.data, isTagChar c = true := by
  intro t ht
  simp only [starTags, List.cons_append, List.nil_append, List.mem_cons] at ht
  rcases ht with rfl | ht
  · intro c hc
    revert c
    decide
  · rcases List.mem_append.mp ht with ht | ht
    · by_cases hl : repo.language == ""
      · rw [if_pos hl] at ht
        simp at ht
      · rw [if_neg hl] at ht
        rcases List.mem_singleton.mp ht with rfl
        intro c hc
        rw [String.data_append] at hc
        rcases List.mem_append.mp hc with hc2 | hc2
        · exact chars_of_const _ (by decide) c hc2
        · exact normalizeTag_chars _ c hc2
    · rcases List.mem_map.mp ht with ⟨topic, _, rfl⟩
      intro c hc
      rw [String.data_append] at hc
      rcases List.mem_append.mp hc with hc2 | hc2
      · exact chars_of_const _ (by decide) c hc2
      · exact normalizeTag_chars _ c hc2

theorem collapseWs_no_space (rep : Char) (hrep : jsSpace rep = false) :
    ∀ (prev : Bool) (l : List Char), ∀ c ∈ collapseWs rep prev l, jsSpace c = false := by
  intro prev l
  induction l generalizing prev with
  | nil =>
    intro c hc
    simp [collapseWs] at hc
  | cons a t ih =>
    intro c hc
    simp only [collapseWs] at hc
    by_cases ha : jsSpace a = true
    · rw [if_pos ha] at hc
      by_cases hp : prev = true
      · rw [if_pos hp] at hc
        exact ih _ c hc
      · rw [if_neg hp] at hc
        rcases List.mem_cons.mp hc with rfl | hc
        · exact hrep
        · exact ih _ c hc
    · rw [Bool.not_eq_true] at ha
      rw [if_neg (by simp [ha])] at hc
      rcases List.mem_cons.mp hc with rfl | hc
      · exact ha
      · exact ih _ c hc

theorem prLabelTag_no_space (name : String) :
    ∀ c ∈ (prLabelTag name).data, jsSpace c = false := by
  intro c hc
  simp only [prLabelTag] at hc
  rw [String.data_append] at hc
  rcases List.mem_append.mp hc with hc2 | hc2
  · exact no_space_of_const _ (by decide) c hc2
  · exact collapseWs_no_space '-' (by decide) false _ c hc2

theorem prLabelTag_mem (pr : PullRequest) (lbl : PRLabel) (h : lbl ∈ pr.labels) :
    prLabelTag lbl.name ∈ prTags pr := by
  simp only [prTags, List.cons_append, List.nil_append]
  apply List.mem_cons_of_mem
  apply List.mem_cons_of_mem
  apply List.mem_append_right
  exact List.mem_map.mpr ⟨lbl, h, rfl⟩

theorem prStateTag_mem (pr : PullRequest) :
    "github/pr-state/" ++ pr.state ∈ prTags pr := by
  simp only [prTags, List.cons_append, List.nil_append]
  exact List.mem_cons_of_mem _ (List.mem_cons_self _ _)

/-! The claims. -/

/-- C1: on an incremental run (non-empty watermark, so `firstFetch = false`) of
the page loop shared by `fetchStars` and `fetchPullRequests` — stated for an
arbitrary materializer `mat`, hence for `createNoteForRepo` and
`createNoteForPR` alike — the loop stops at the first item whose materializer
returns `false` (already existed): every materialized item except possibly the
last one received `true`; when the run stopped, the last outcome is `false`,
and the materialized items are exactly the full pages before page
`pagesRequested` plus a prefix of that page ending at the stopping item, so no
later item of that page is materialized and no page after the one containing
that item is requested. -/
theorem c1_incremental_stop {α : Type} (mat : Vault → α → Bool × Vault)
    (pages : List (List α)) (v : Vault) :
    ∃ r, fetchPages mat false (pages.map Except.ok) v = .ok r ∧
      (∀ ob ∈ r.outcomes.dropLast, ob.2 = true) ∧
      (r.stopped = true →
        (r.outcomes.map Prod.snd).getLast? = some false ∧
        ∃ m, m + 1 ≤ (pages.getD (r.pagesRequested - 1) []).length ∧
          r.outcomes.map Prod.fst
            = (pages.take (r.pagesRequested - 1)).flatten
               ++ (pages.getD (r.pagesRequested - 1) []).take (m + 1)) ∧
      (r.stopped = false →
        r.outcomes.map Prod.fst = (pages.take r.pagesRequested).flatten) := by
  rcases fetchPages_false_spec mat pages v with ⟨r, hr, _, hA, hB⟩
  refine ⟨r, hr, ?_, ?_, fun hs => (hA hs).2⟩
  · intro ob hob
    by_cases hst : r.stopped = true
    · rcases hB hst with ⟨m, _, hsnd, _⟩
      have hmem : ob.2 ∈ (r.outcomes.map Prod.snd).dropLast := by
        rw [← List.map_dropLast]
        exact List.mem_map_of_mem _ hob
      rw [hsnd, List.dropLast_concat] at hmem
      exact List.eq_of_mem_replicate hmem
    · rw [Bool.not_eq_true] at hst
      have hmem : ob.2 ∈ r.outcomes.map Prod.snd :=
        List.mem_map_of_mem _ (List.mem_of_mem_dropLast hob)
      rw [(hA hst).1] at hmem
      exact List.eq_of_mem_replicate hmem
  · intro hst
    rcases hB hst with ⟨m, hm, hsnd, hf⟩
    refine ⟨?_, m, hm, hf⟩
    rw [hsnd]
    exact List.getLast?_concat _

theorem c1_witness :
    ∃ r, fetchPages (fun vt rp => createNoteForRepo envOk sampleSettings vt rp) false
        ([[sampleRepo]].map Except.ok) sampleVaultWithNote = .ok r ∧
      (∀ ob ∈ r.outcomes.dropLast, ob.2 = true) ∧
      (r.stopped = true →
        (r.outcomes.map Prod.snd).getLast? = some false ∧
        ∃ m, m + 1 ≤ ([[sampleRepo]].getD (r.pagesRequested - 1) []).length ∧
          r.outcomes.map Prod.fst
            = ([[sampleRepo]].take (r.pagesRequested - 1)).flatten
               ++ ([[sampleRepo]].getD (r.pagesRequested - 1) []).take (m + 1)) ∧
      (r.stopped = false →
        r.outcomes.map Prod.fst = ([[sampleRepo]].take r.pagesRequested).flatten) :=
  c1_incremental_stop (fun vt rp => createNoteForRepo envOk sampleSettings vt rp)
    [[sampleRepo]] sampleVaultWithNote

/-- C2: a first fetch (empty watermark, so `firstFetch = true`) of the page
loop processes pages 1, 2, … and materializes every item of every requested
page regardless of the materializer's created/updated outcomes (the statement
holds for an arbitrary materializer and the run never sets `stopped`), and it
stops exactly at the first page holding fewer than 100 items — has-more is
`items.length == 100`, computed from the page length alone, so under the
remote's 100-items-per-page cap the pages before the last requested one all
carry exactly 100 items and the last requested page is short. -/
theorem c2_first_fetch_backfill {α : Type} (mat : Vault → α → Bool × Vault)
    (pages : List (List α)) (v : Vault) (hcap : ∀ p ∈ pages, p.length ≤ 100) :
    ∃ r, fetchPages mat true (pages.map Except.ok) v = .ok r ∧
      r.stopped = false ∧
      r.outcomes.map Prod.fst = (pages.take r.pagesRequested).flatten ∧
      r.pagesRequested = firstShortIdx pages ∧
      (∀ p ∈ pages.take (r.pagesRequested - 1), p.length = 100) ∧
      (pages.getD (r.pagesRequested - 1) []).length < 100 := by
  rcases fetchPages_true_spec mat pages v with ⟨r, hr, hst, hpr, hf⟩
  refine ⟨r, hr, hst, hf, hpr, ?_, ?_⟩
  · rw [hpr]
    exact firstShortIdx_full_take pages
  · rw [hpr]
    have h1 := firstShortIdx_short pages
    have h2 := getD_length_le pages (firstShortIdx pages - 1) hcap
    omega

theorem c2_witness :
    (∀ p ∈ [[sampleRepo]], p.length ≤ 100) ∧
    ∃ r, fetchPages (fun vt rp => createNoteForRepo envOk sampleSettings vt rp) true
        ([[sampleRepo]].map Except.ok) emptyVault = .ok r ∧
      r.stopped = false ∧
      r.outcomes.map Prod.fst = ([[sampleRepo]].take r.pagesRequested).flatten ∧
      r.pagesRequested = firstShortIdx [[sampleRepo]] ∧
      (∀ p ∈ [[sampleRepo]].take (r.pagesRequested - 1), p.length = 100) ∧
      ([[sampleRepo]].getD (r.pagesRequested - 1) []).length < 100 :=
  ⟨by decide,
   c2_first_fetch_backfill (fun vt rp => createNoteForRepo envOk sampleSettings vt rp)
     [[sampleRepo]] emptyVault (by decide)⟩

/-- C3 counterexample: with the built-in template selected and the note already
present at the computed path, an erroring materialization (here:
`processFrontMatter` throws) is caught, yet `createNoteForRepo` returns
`false` — not `true` as the claim states — so the failed item does trigger the
incremental stop condition. -/
theorem c3_counterexample :
    envFmThrow.fmFailStar sampleRepo = true ∧
    sampleSettings.useDefaultTemplateStar = true ∧
    sampleVaultWithNote.existsPath (repoNotePath sampleSettings sampleRepo) = true ∧
    (createNoteForRepo envFmThrow sampleSettings sampleVaultWithNote sampleRepo).1 = false :=
  ⟨rfl, rfl, rfl, rfl⟩

/-- C3 (amended): a per-item materialization error is caught inside
`createNoteForRepo` / `createNoteForPR`: under any failure oracle the page loop
still completes normally (no exception escapes to abort the batch), and the
returned boolean is the negated pre-existence check computed before the error —
an erroring item at a fresh path returns `true` and does not stop an
incremental run, but an erroring item at an already-existing path still
returns `false` and does trigger the stop. -/
theorem c3_amended_error_is_caught (env : Env) (s : GitHubPluginSettings) (v : Vault)
    (repo : StarredRepo) (pr : PullRequest) (ff : Bool)
    (pages : List (List StarredRepo)) :
    (createNoteForRepo env s v repo).1 = !(v.existsPath (repoNotePath s repo)) ∧
    (createNoteForPR env s v pr).1
      = !((ensureDirs v (prRepoDir s pr)).existsPath (prNotePath s pr)) ∧
    ∃ r, fetchPages (fun vt rp => createNoteForRepo env s vt rp) ff (pages.map Except.ok) v
        = .ok r :=
  ⟨rfl, rfl, fetchPages_all_ok _ ff pages v⟩

/-- C9 counterexample: the pull-request label "C++" yields the tag
"github/pr-label/c++", which is written into the tag list while keeping the
character '+', a character outside the restricted class `[a-z0-9/_-]`; so not
every PR tag string is normalized to the restricted character set. -/
theorem c9_counterexample :
    "github/pr-label/c++" ∈ prTags samplePR ∧
    '+' ∈ "github/pr-label/c++".data ∧
    isTagChar '+' = false := by
  refine ⟨by decide, by decide, rfl⟩

/-- C9 (amended): only the star-side language and topic tags pass through
`normalizeTag`: every tag written for a starred repository consists solely of
characters in the restricted class `[a-z0-9/_-]`.  For pull requests, the
state tag embeds the raw state string verbatim, the draft/merged tags are
fixed constants, and each label tag is the label name lower-cased with
whitespace runs replaced by hyphens — free of whitespace but not restricted to
the `[a-z0-9/_-]` class. -/
theorem c9_amended_tag_normalization :
    (∀ repo : StarredRepo, ∀ t ∈ starTags repo, ∀ c ∈ t.data, isTagChar c = true) ∧
    (∀ pr : PullRequest, "github/pr-state/" ++ pr.state ∈ prTags pr) ∧
    (∀ (pr : PullRequest) (lbl : PRLabel), lbl ∈ pr.labels →
      prLabelTag lbl.name ∈ prTags pr ∧
      ∀ c ∈ (prLabelTag lbl.name).data, jsSpace c = false) :=
  ⟨starTags_chars, prStateTag_mem,
   fun pr lbl h => ⟨prLabelTag_mem pr lbl h, prLabelTag_no_space lbl.name⟩⟩

theorem c9_amended_witness :
    prLabelTag "C++" ∈ prTags samplePR ∧
    ∀ c ∈ (prLabelTag "C++").data, jsSpace c = false :=
  c9_amended_tag_normalization.2.2 samplePR { name := "C++" } (by decide)

/-- C10: the boolean returned by `createNoteForRepo` / `createNoteForPR` equals
"nothing existed at the computed note path before the call" (for PRs the
existence check runs after the call's own repository-directory creation step,
which adds folders but never a file); the check is performed once, before any
write, and the returned value is independent of whether the subsequent create
or frontmatter write succeeded or threw: any two failure oracles yield the
same boolean. -/
theorem c10_return_is_preexistence (env env' : Env) (s : GitHubPluginSettings)
    (v : Vault) (repo : StarredRepo) (pr : PullRequest) :
    (createNoteForRepo env s v repo).1 = !(v.existsPath (repoNotePath s repo)) ∧
    (createNoteForRepo env s v repo).1 = (createNoteForRepo env' s v repo).1 ∧
    (createNoteForPR env s v pr).1
      = !((ensureDirs v (prRepoDir s pr)).existsPath (prNotePath s pr)) ∧
    (ensureDirs v (prRepoDir s pr)).files = v.files ∧
    (createNoteForPR env s v pr).1 = (createNoteForPR env' s v pr).1 :=
  ⟨rfl, rfl, rfl, ensureDirs_files v _, rfl⟩

theorem fetchStars_ran_settings (env : Env) (s : GitHubPluginSettings) (v : Vault)
    (remote : List (Except String (List StarredRepo))) (hs : s.syncEnabled = true)
    (hv : settingsAreValid s = true) :
    ∀ r, (fetchStars env s v remote).result = .ran r →
      (fetchStars env s v remote).settings = { s with lastFetchDate := env.nowISO } := by
  intro r hr
  rw [fetchStars_go env s v remote hs hv] at hr ⊢
  cases hq : fetchPages (fun vt repo => createNoteForRepo env s vt repo)
      (s.lastFetchDate == "") remote (ensureDirs v s.targetDirectory) with
  | error E =>
    obtain ⟨e, ve, n⟩ := E
    rw [hq] at hr
    exact FetchResult.noConfusion hr
  | ok r2 =>
    rfl

theorem fetchStars_failed_settings (env : Env) (s : GitHubPluginSettings) (v : Vault)
    (remote : List (Except String (List StarredRepo))) (hs : s.syncEnabled = true)
    (hv : settingsAreValid s = true) :
    ∀ e, (fetchStars env s v remote).result = .failed e →
      (fetchStars env s v remote).settings = s ∧
      (fetchStars env s v remote).notices = ["Error fetching GitHub stars: " ++ e] := by
  intro e he
  rw [fetchStars_go env s v remote hs hv] at he ⊢
  cases hq : fetchPages (fun vt repo => createNoteForRepo env s vt repo)
      (s.lastFetchDate == "") remote (ensureDirs v s.targetDirectory) with
  | error E =>
    obtain ⟨e2, ve, n⟩ := E
    rw [hq] at he
    have he2 : FetchResult.failed (α := StarredRepo) e2 = FetchResult.failed e := he
    cases he2
    exact ⟨rfl, rfl⟩
  | ok r2 =>
    rw [hq] at he
    exact FetchResult.noConfusion he

theorem fetchPullRequests_ran_settings (env : Env) (s : GitHubPluginSettings) (v : Vault)
    (remote : List (Except String (List PullRequest))) (hs : s.syncEnabled = true)
    (hv : settingsAreValid s = true) :
    ∀ r, (fetchPullRequests env s v remote).result = .ran r →
      (fetchPullRequests env s v remote).settings
        = { s with lastPRFetchDate := env.nowISO } := by
  intro r hr
  rw [fetchPullRequests_go env s v remote hs hv] at hr ⊢
  cases hq : fetchPages (fun vt pr => createNoteForPR env s vt pr)
      (s.lastPRFetchDate == "") remote (ensureDirs v (prBaseDir s)) with
  | error E =>
    obtain ⟨e, ve, n⟩ := E
    rw [hq] at hr
    exact FetchResult.noConfusion hr
  | ok r2 =>
    rfl

theorem fetchPullRequests_failed_settings (env : Env) (s : GitHubPluginSettings) (v : Vault)
    (remote : List (Except String (List PullRequest))) (hs : s.syncEnabled = true)
    (hv : settingsAreValid s = true) :
    ∀ e, (fetchPullRequests env s v remote).result = .failed e →
      (fetchPullRequests env s v remote).settings = s ∧
      (fetchPullRequests env s v remote).notices
        = ["Error fetching pull requests: " ++ e] := by
  intro e he
  rw [fetchPullRequests_go env s v remote hs hv] at he ⊢
  cases hq : fetchPages (fun vt pr => createNoteForPR env s vt pr)
      (s.lastPRFetchDate == "") remote (ensureDirs v (prBaseDir s)) with
  | error E =>
    obtain ⟨e2, ve, n⟩ := E
    rw [hq] at he
    have he2 : FetchResult.failed (α := PullRequest) e2 = FetchResult.failed e := he
    cases he2
    exact ⟨rfl, rfl⟩
  | ok r2 =>
    rw [hq] at he
    exact FetchResult.noConfusion he

/-- C4: for `fetchStars` / `fetchPullRequests`, when the page loop completes
(the run result is `ran`), the watermark of that entity type is set to the
current wall-clock reading `env.nowISO` — a value independent of any fetched
item — and saved in the returned settings; when an exception escapes the page
loop (result `failed`), the run aborts with the error surfaced as a
notification and the settings, in particular the watermark, are left
unchanged. -/
theorem c4_watermark_semantics (env : Env) (s : GitHubPluginSettings) (v : Vault)
    (remoteS : List (Except String (List StarredRepo)))
    (remoteP : List (Except String (List PullRequest))) :
    (∀ r, (fetchStars env s v remoteS).result = .ran r →
      (fetchStars env s v remoteS).settings = { s with lastFetchDate := env.nowISO }) ∧
    (∀ e, (fetchStars env s v remoteS).result = .failed e →
      (fetchStars env s v remoteS).settings = s ∧
      (fetchStars env s v remoteS).notices = ["Error fetching GitHub stars: " ++ e]) ∧
    (∀ r, (fetchPullRequests env s v remoteP).result = .ran r →
      (fetchPullRequests env s v remoteP).settings
        = { s with lastPRFetchDate := env.nowISO }) ∧
    (∀ e, (fetchPullRequests env s v remoteP).result = .failed e →
      (fetchPullRequests env s v remoteP).settings = s ∧
      (fetchPullRequests env s v remoteP).notices
        = ["Error fetching pull requests: " ++ e]) := by
  by_cases hs : s.syncEnabled = true
  · by_cases hv : settingsAreValid s = true
    · exact ⟨fetchStars_ran_settings env s v remoteS hs hv,
             fetchStars_failed_settings env s v remoteS hs hv,
             fetchPullRequests_ran_settings env s v remoteP hs hv,
             fetchPullRequests_failed_settings env s v remoteP hs hv⟩
    · rw [Bool.not_eq_true] at hv
      rw [fetchStars_invalid env s v remoteS hs hv,
        fetchPullRequests_invalid env s v remoteP hs hv]
      exact ⟨fun r hr => FetchResult.noConfusion hr, fun e he => FetchResult.noConfusion he,
             fun r hr => FetchResult.noConfusion hr, fun e he => FetchResult.noConfusion he⟩
  · rw [Bool.not_eq_true] at hs
    rw [fetchStars_disabled env s v remoteS hs, fetchPullRequests_disabled env s v remoteP hs]
    exact ⟨fun r hr => FetchResult.noConfusion hr, fun e he => FetchResult.noConfusion he,
           fun r hr => FetchResult.noConfusion hr, fun e he => FetchResult.noConfusion he⟩

theorem c4_witness :
    (fetchStars envOk sampleSettings emptyVault []).settings
      = { sampleSettings with lastFetchDate := envOk.nowISO } :=
  (c4_watermark_semantics envOk sampleSettings emptyVault [] []).1
    ⟨ensureDirs emptyVault sampleSettings.targetDirectory, 0, 1, false, []⟩
    (by rw [fetchStars_go envOk sampleSettings emptyVault [] rfl rfl, fetchPages_nil])

/-- C5: for a record whose identity maps to path `P = repoNotePath s repo`:
if no file or folder exists at `P` (and the host create step does not throw),
materialization creates a file at `P` whose body is exactly the rendered
template — the built-in one or the user-supplied one, whichever
`readTemplate` selects; if the path already exists, every file's body is
preserved byte-for-byte and the set of file paths is unchanged —
materialization writes only the structured metadata block, and when the
built-in template is not selected it changes nothing at all. -/
theorem c5_materializer_frame (env : Env) (s : GitHubPluginSettings) (v : Vault)
    (repo : StarredRepo) :
    ((v.existsPath (repoNotePath s repo) = false ∧ env.cFailStar repo = false) →
      (((createNoteForRepo env s v repo).2).getFile (repoNotePath s repo)).map VFile.body
        = some (env.hbStar (readTemplate v s.useDefaultTemplateStar s.templatePathStar
            starDefaultTemplate) repo)) ∧
    (v.existsPath (repoNotePath s repo) = true →
      (∀ q, (((createNoteForRepo env s v repo).2).getFile q).map VFile.body
          = (v.getFile q).map VFile.body) ∧
      ((createNoteForRepo env s v repo).2).files.map Prod.fst = v.files.map Prod.fst ∧
      (s.useDefaultTemplateStar = false → (createNoteForRepo env s v repo).2 = v)) := by
  constructor
  · intro ⟨hex, hc⟩
    exact createNoteForRepo_create_body env s v repo hex hc
  · intro hex
    exact ⟨createNoteForRepo_exists_getFile_body env s v repo hex,
           createNoteForRepo_exists_files_fst env s v repo hex,
           fun hd => createNoteForRepo_exists_custom_frame env s v repo hex hd⟩

theorem c5_witness :
    (((createNoteForRepo envOk sampleSettings emptyVault sampleRepo).2).getFile
        (repoNotePath sampleSettings sampleRepo)).map VFile.body
      = some (envOk.hbStar (readTemplate emptyVault sampleSettings.useDefaultTemplateStar
          sampleSettings.templatePathStar starDefaultTemplate) sampleRepo) :=
  (c5_materializer_frame envOk sampleSettings emptyVault sampleRepo).1 ⟨rfl, rfl⟩

/-- C8: with a missing username or a missing target directory
(`settingsAreValid` is `false`), each of `fetchStars` and `fetchPullRequests`
shows a user notification and returns before issuing any page request (zero
requests) and without mutating any settings field — in particular the
watermarks — or any file. -/
theorem c8_invalid_settings_abort (env : Env) (s : GitHubPluginSettings) (v : Vault)
    (remoteS : List (Except String (List StarredRepo)))
    (remoteP : List (Except String (List PullRequest)))
    (h : settingsAreValid s = false) :
    ((fetchStars env s v remoteS).settings = s ∧
     (fetchStars env s v remoteS).vault = v ∧
     (fetchStars env s v remoteS).requests = 0 ∧
     (fetchStars env s v remoteS).notices ≠ []) ∧
    ((fetchPullRequests env s v remoteP).settings = s ∧
     (fetchPullRequests env s v remoteP).vault = v ∧
     (fetchPullRequests env s v remoteP).requests = 0 ∧
     (fetchPullRequests env s v remoteP).notices ≠ []) := by
  by_cases hs : s.syncEnabled = true
  · rw [fetchStars_invalid env s v remoteS hs h,
      fetchPullRequests_invalid env s v remoteP hs h]
    exact ⟨⟨rfl, rfl, rfl, by simp⟩, ⟨rfl, rfl, rfl, by simp⟩⟩
  · rw [Bool.not_eq_true] at hs
    rw [fetchStars_disabled env s v remoteS hs, fetchPullRequests_disabled env s v remoteP hs]
    exact ⟨⟨rfl, rfl, rfl, by simp⟩, ⟨rfl, rfl, rfl, by simp⟩⟩

theorem c8_witness :
    settingsAreValid invalidSettings = false ∧
    (fetchStars envOk invalidSettings emptyVault []).settings = invalidSettings ∧
    (fetchStars envOk invalidSettings emptyVault []).requests = 0 :=
  ⟨rfl,
   (c8_invalid_settings_abort envOk invalidSettings emptyVault [] [] rfl).1.1,
   (c8_invalid_settings_abort envOk invalidSettings emptyVault [] [] rfl).1.2.2.1⟩

/-- C7: the "force" command clears the star watermark and then runs
`fetchStars`; by construction this is exactly the run `fetchStars` performs on
the watermark-cleared settings, i.e. a first-ever fetch over the same remote
listing (the cleared watermark makes `firstFetch` true, yielding the full
backfill over all pages with no early stop), and it duplicates no existing
file: the identity-derived note path ignores the watermark, every pre-existing
path survives (the new path list extends the old), no-duplicate-paths is
preserved, and each new file sits at the identity-derived path of some listed
record — a record whose path already exists is updated in place, never
recreated under a new path. -/
theorem c7_force_equals_first_fetch (env : Env) (s : GitHubPluginSettings) (v : Vault)
    (pages : List (List StarredRepo))
    (hs : s.syncEnabled = true) (hv : settingsAreValid s = true)
    (hnd : (v.files.map Prod.fst).Nodup) :
    forceFetchStars env s v (pages.map Except.ok)
      = fetchStars env { s with lastFetchDate := "" } v (pages.map Except.ok) ∧
    (∀ repo, repoNotePath { s with lastFetchDate := "" } repo = repoNotePath s repo) ∧
    ∃ r, (forceFetchStars env s v (pages.map Except.ok)).result = .ran r ∧
      r.stopped = false ∧
      r.outcomes.map Prod.fst = (pages.take r.pagesRequested).flatten ∧
      r.pagesRequested = firstShortIdx pages ∧
      (∃ ext, (((forceFetchStars env s v (pages.map Except.ok)).vault).files).map Prod.fst
          = v.files.map Prod.fst ++ ext ∧
        ∀ q ∈ ext, ∃ repo ∈ pages.flatten, repoNotePath s repo = q) ∧
      ((((forceFetchStars env s v (pages.map Except.ok)).vault).files).map Prod.fst).Nodup := by
  obtain ⟨r, hr, hst, hpr, hf⟩ := fetchPages_true_spec
    (fun vt rp => createNoteForRepo env { s with lastFetchDate := "" } vt rp) pages
    (ensureDirs v ({ s with lastFetchDate := "" } : GitHubPluginSettings).targetDirectory)
  have hgo : forceFetchStars env s v (pages.map Except.ok)
      = ⟨{ { s with lastFetchDate := "" } with lastFetchDate := env.nowISO }, r.vault,
         (if r.count != 0 then ["Total " ++ toString r.count ++ " GitHub stars"] else []),
         r.pagesRequested, .ran r⟩ := by
    show fetchStars env { s with lastFetchDate := "" } v (pages.map Except.ok) = _
    rw [fetchStars_go env { s with lastFetchDate := "" } v (pages.map Except.ok) hs hv]
    rw [show (({ s with lastFetchDate := "" } : GitHubPluginSettings).lastFetchDate == "")
        = true from rfl]
    rw [hr]
  rcases fetchPages_paths
      (fun vt rp => createNoteForRepo env { s with lastFetchDate := "" } vt rp)
      (repoNotePath { s with lastFetchDate := "" })
      (createNoteForRepo_paths_hyp env { s with lastFetchDate := "" }) true pages
      (ensureDirs v ({ s with lastFetchDate := "" } : GitHubPluginSettings).targetDirectory)
      r hr with ⟨ext, hext, hqext, hnodup⟩
  have hbase : (((ensureDirs v ({ s with lastFetchDate := "" } :
      GitHubPluginSettings).targetDirectory).files).map Prod.fst) = v.files.map Prod.fst := by
    rw [ensureDirs_files]
  refine ⟨rfl, fun _ => rfl, r, ?_, hst, hf, hpr, ⟨ext, ?_, ?_⟩, ?_⟩
  · rw [hgo]
  · rw [hgo]
    dsimp only
    rw [hext, hbase]
  · intro q hq
    rcases hqext q hq with ⟨repo, hrepo, hpq⟩
    exact ⟨repo, hrepo, hpq⟩
  · rw [hgo]
    dsimp only
    apply hnodup
    rw [hbase]
    exact hnd

theorem c7_witness :
    forceFetchStars envOk sampleSettings emptyVault ([[sampleRepo]].map Except.ok)
      = fetchStars envOk { sampleSettings with lastFetchDate := "" } emptyVault
          ([[sampleRepo]].map Except.ok) ∧
    (∀ repo, repoNotePath { sampleSettings with lastFetchDate := "" } repo
      = repoNotePath sampleSettings repo) ∧
    ∃ r, (forceFetchStars envOk sampleSettings emptyVault
        ([[sampleRepo]].map Except.ok)).result = .ran r ∧
      r.stopped = false ∧
      r.outcomes.map Prod.fst = ([[sampleRepo]].take r.pagesRequested).flatten ∧
      r.pagesRequested = firstShortIdx [[sampleRepo]] ∧
      (∃ ext, (((forceFetchStars envOk sampleSettings emptyVault
            ([[sampleRepo]].map Except.ok)).vault).files).map Prod.fst
          = emptyVault.files.map Prod.fst ++ ext ∧
        ∀ q ∈ ext, ∃ repo ∈ [[sampleRepo]].flatten, repoNotePath sampleSettings repo = q) ∧
      ((((forceFetchStars envOk sampleSettings emptyVault
          ([[sampleRepo]].map Except.ok)).vault).files).map Prod.fst).Nodup :=
  c7_force_equals_first_fetch envOk sampleSettings emptyVault [[sampleRepo]] rfl rfl
    List.Pairwise.nil

/-- C6: running sync twice in sequence — a non-empty watermark on the first
run, a clock whose ISO reading is non-empty (so the second run is incremental
too), failure-free host storage, and an unchanged remote listing — creates
zero new files on the second run: the first run leaves the note of the first
listed item in place, so the second run's first item already resolves to an
existing path and stops the loop, and the second run's vault carries exactly
the file paths of the first run's vault. -/
theorem c6_second_run_creates_no_files (env : Env) (s : GitHubPluginSettings) (v : Vault)
    (pages : List (List StarredRepo))
    (hok : ∀ repo, env.cFailStar repo = false)
    (hwm : s.lastFetchDate ≠ "") (hnow : env.nowISO ≠ "") :
    ((((fetchStars env (fetchStars env s v (pages.map Except.ok)).settings
        (fetchStars env s v (pages.map Except.ok)).vault
        (pages.map Except.ok)).vault).files).map Prod.fst)
      = ((((fetchStars env s v (pages.map Except.ok)).vault).files).map Prod.fst) := by
  by_cases hs : s.syncEnabled = true
  case neg =>
    rw [Bool.not_eq_true] at hs
    rw [fetchStars_disabled env s v (pages.map Except.ok) hs]
    dsimp only
    rw [fetchStars_disabled env s v (pages.map Except.ok) hs]
  case pos =>
  by_cases hv : settingsAreValid s = true
  case neg =>
    rw [Bool.not_eq_true] at hv
    rw [fetchStars_invalid env s v (pages.map Except.ok) hs hv]
    dsimp only
    rw [fetchStars_invalid env s v (pages.map Except.ok) hs hv]
  case pos =>
  obtain ⟨r1, hr1⟩ := fetchPages_all_ok
    (fun vt rp => createNoteForRepo env s vt rp) (s.lastFetchDate == "") pages
    (ensureDirs v s.targetDirectory)
  have hrun1 : fetchStars env s v (pages.map Except.ok)
      = ⟨{ s with lastFetchDate := env.nowISO }, r1.vault,
         (if r1.count != 0 then ["Total " ++ toString r1.count ++ " GitHub stars"] else []),
         r1.pagesRequested, .ran r1⟩ := by
    rw [fetchStars_go env s v (pages.map Except.ok) hs hv, hr1]
  rw [hrun1]
  dsimp only
  have hff2 : (env.nowISO == "") = false := beq_false_of_ne hnow
  cases pages with
  | nil =>
    rw [fetchStars_go env { s with lastFetchDate := env.nowISO } r1.vault
      (List.map Except.ok []) hs hv]
    rw [List.map_nil, fetchPages_nil]
    dsimp only
    rw [ensureDirs_files]
  | cons p ps =>
    cases p with
    | nil =>
      rw [fetchStars_go env { s with lastFetchDate := env.nowISO } r1.vault
        ((([] : List StarredRepo) :: ps).map Except.ok) hs hv]
      rw [List.map_cons]
      rw [fetchPages_cons_short _ _ ([] : List StarredRepo) (ps.map Except.ok)
        (ensureDirs r1.vault ({ s with lastFetchDate := env.nowISO } :
          GitHubPluginSettings).targetDirectory) rfl (by decide)]
      dsimp only [processItems]
      rw [ensureDirs_files]
    | cons a t =>
      have hhead := fetchPages_head_exists env s (s.lastFetchDate == "") a t ps
        (ensureDirs v s.targetDirectory) (hok a) r1 hr1
      have hex2 : (ensureDirs r1.vault s.targetDirectory).existsPath
          (repoNotePath { s with lastFetchDate := env.nowISO } a) = true :=
        ensureDirs_existsPath_mono r1.vault s.targetDirectory (repoNotePath s a) hhead
      have hstop : ((fun vt rp => createNoteForRepo env
          { s with lastFetchDate := env.nowISO } vt rp)
          (ensureDirs r1.vault s.targetDirectory) a).1 = false := by
        show (createNoteForRepo env { s with lastFetchDate := env.nowISO }
          (ensureDirs r1.vault s.targetDirectory) a).1 = false
        rw [createNoteForRepo_fst, hex2]
        rfl
      have hproc := processItems_stop_head
        (fun vt rp => createNoteForRepo env { s with lastFetchDate := env.nowISO } vt rp)
        a t (ensureDirs r1.vault s.targetDirectory) hstop
      rw [fetchStars_go env { s with lastFetchDate := env.nowISO } r1.vault
        (((a :: t) :: ps).map Except.ok) hs hv]
      dsimp only
      rw [hff2, List.map_cons]
      rw [fetchPages_cons_stop _ false (a :: t) (ps.map Except.ok)
        (ensureDirs r1.vault s.targetDirectory) (by rw [hproc])]
      dsimp only
      rw [hproc]
      dsimp only
      rw [createNoteForRepo_exists_files_fst env { s with lastFetchDate := env.nowISO }
        (ensureDirs r1.vault s.targetDirectory) a hex2]
      rw [ensureDirs_files]

theorem c6_witness :
    ((((fetchStars envOk
        (fetchStars envOk { sampleSettings with lastFetchDate := "2025-06-01" } emptyVault
          ([[sampleRepo]].map Except.ok)).settings
        (fetchStars envOk { sampleSettings with lastFetchDate := "2025-06-01" } emptyVault
          ([[sampleRepo]].map Except.ok)).vault
        ([[sampleRepo]].map Except.ok)).vault).files).map Prod.fst)
      = ((((fetchStars envOk { sampleSettings with lastFetchDate := "2025-06-01" } emptyVault
          ([[sampleRepo]].map Except.ok)).vault).files).map Prod.fst) :=
  c6_second_run_creates_no_files envOk { sampleSettings with lastFetchDate := "2025-06-01" }
    emptyVault [[sampleRepo]] (fun _ => rfl) (by decide) (by decide)

end ObsidianGH
